import Mathlib

/-!
Verification of the ChatWme Messenger-bot repository (several near-duplicate
server variants).  Each JavaScript function that the claims touch is embedded
as an executable Lean definition translated from the source:

* `server.js`    (Groq variant, first document)          — suffix `_srv`
* `src/unnamed/part_000` (slim Groq variant)             — suffix `_p0`
* `src/unnamed/part_001` (Gemini variant)                — suffix `_p1`
* `src/unnamed/part_002` (Groq variant w/ welcome flow)  — suffix `_p2`

Strings are modelled as `List Char` / `String`; the JavaScript regexes used by
the sources are embedded as explicit matchers (character-range tests,
word-boundary alternation tests, and word-sequence tests) that follow the
ECMAScript semantics of the concrete patterns appearing in the sources
(`\b` is a transition between `[A-Za-z0-9_]` and non-word characters, `\s`
is the ECMAScript white-space set, `.` excludes line terminators, `/i` is
modelled by ASCII case folding, which agrees with `toLowerCase` on every
character class the sources use in the evaluated inputs).
-/

namespace ChatWme

/-- The four language tags used by the sources. -/
inductive Lang
  | arabic
  | darija
  | french
  | english
  deriving DecidableEq

/-- Declaration order of the languages in the `LanguageDetector.patterns`
objects of `server.js` and `part_000` (`Object.keys` iteration order). -/
def langIdx : Lang → Nat
  | .arabic => 0
  | .darija => 1
  | .french => 2
  | .english => 3

/-- Message roles stored in the conversation maps. -/
inductive Role
  | user
  | assistant
  | system
  deriving DecidableEq

/-- One stored conversation turn (`{ role, content }`). -/
structure Turn where
  role : Role
  content : String
  deriving DecidableEq

/-- Attachment types carried by a Messenger message. -/
inductive AttachType
  | image
  | audio
  | video
  | file
  | other
  deriving DecidableEq

/-- The media kind reported by the media-notice reply (`getMediaResponse`). -/
inductive MediaKind
  | image
  | audio
  | video
  | media
  deriving DecidableEq

/-- ECMAScript `\s` (the white-space and line-terminator set). -/
def jsWs (c : Char) : Bool :=
  c = ' ' || c = '\t' || c = '\n' || c = '\r' ||
  c = '\x0b' || c = '\x0c' ||
  c.toNat = 0xa0 || c.toNat = 0x1680 ||
  (0x2000 ≤ c.toNat && c.toNat ≤ 0x200a) ||
  c.toNat = 0x2028 || c.toNat = 0x2029 ||
  c.toNat = 0x202f || c.toNat = 0x205f || c.toNat = 0x3000 || c.toNat = 0xfeff

/-- ECMAScript line terminators (the characters `.` does not match). -/
def lineTerm (c : Char) : Bool :=
  c = '\n' || c = '\r' || c.toNat = 0x2028 || c.toNat = 0x2029

/-- ECMAScript `\w` (`[A-Za-z0-9_]`). -/
def isWordChar (c : Char) : Bool :=
  ('a' ≤ c && c ≤ 'z') || ('A' ≤ c && c ≤ 'Z') || ('0' ≤ c && c ≤ '9') || c = '_'

/-- ASCII case folding (models `String.prototype.toLowerCase` / regex `/i`
on the character material used by the sources). -/
def lowerCL (l : List Char) : List Char := l.map Char.toLower

/-- JavaScript `String.prototype.trim` on a character list. -/
def trimCL (l : List Char) : List Char :=
  ((l.dropWhile jsWs).reverse.dropWhile jsWs).reverse

/-- JavaScript `String.prototype.trim`. -/
def jsTrim (s : String) : String := String.mk (trimCL s.data)

/-- `needle` occurs as a contiguous sublist of `hay`
(JavaScript `String.prototype.includes`). -/
def containsSub (needle : List Char) : List Char → Bool
  | [] => needle.isEmpty
  | c :: rest => needle.isPrefixOf (c :: rest) || containsSub needle rest

/-- Case-insensitive `includes` as used by keyword scoring:
`lowerText.includes(keyword.toLowerCase())`. -/
def kwHit (t : String) (k : String) : Bool :=
  containsSub (lowerCL k.data) (lowerCL t.data)

/-- Case-sensitive `text.includes(sub)`. -/
def kwHitCase (t : String) (sub : String) : Bool :=
  containsSub sub.data t.data

/-- Number of matched keywords
(`config.keywords.filter(k => lowerText.includes(k.toLowerCase())).length`). -/
def countKw (kws : List String) (t : String) : Nat :=
  (kws.filter (kwHit t)).length

/-- `true` when the optional character is an ECMAScript word character
(out-of-range positions count as non-word for `\b`). -/
def optWord : Option Char → Bool
  | some c => isWordChar c
  | none => false

/-- One alternative of a `\b(a|b|…)\b` regex matches at the current position
(`prev` is the character just before that position). -/
def wbHere (alt : List Char) (prev : Option Char) (s : List Char) : Bool :=
  alt.isPrefixOf s &&
  (optWord prev != optWord alt.head?) &&
  (optWord alt.getLast? != optWord (s.drop alt.length).head?)

/-- Unanchored search for a `\b(a|b|…)\b` regex over the (already folded)
text, scanning every start position. -/
def wbSearch (alts : List (List Char)) (prev : Option Char) (s : List Char) : Bool :=
  alts.any (fun a => wbHere a prev s) ||
  (match s with
   | [] => false
   | c :: rest => wbSearch alts (some c) rest)

/-- `/\b(w1|w2|…)\b/i.test(text)` for a word-alternation regex. -/
def wbTest (alts : List String) (t : String) : Bool :=
  wbSearch (alts.map (fun a => lowerCL a.data)) none (lowerCL t.data)

/-- `regex.test(text)` for a character-class regex given by code-point
ranges (e.g. `/[؀-ۿ]/`). -/
def rangeTest (ranges : List (Nat × Nat)) (t : String) : Bool :=
  t.data.any (fun c => ranges.any (fun r => r.1 ≤ c.toNat && c.toNat ≤ r.2))

/-! ## Language detection — `server.js` `LanguageDetector` (lines 76–126) -/

/-- `server.js` arabic keyword list. -/
def srvArabicKws : List String :=
  ["السلام", "مرحبا", "شكرا", "نعم", "لا", "كيف", "ماذا", "أين", "متى", "لماذا",
   "اهلا", "وسهلا"]

/-- `server.js` darija word-boundary regex alternatives. -/
def srvDarijaRe : List String :=
  ["كيفاش", "واش", "بزاف", "مزيان", "بلاك", "شنو", "فين", "وقتاش", "علاش", "كيما",
   "حنا", "نتوما", "هوما", "راه", "راك", "راها", "دابا", "غدا", "البارح",
   "معلا باليك", "مخدمينش", "خدمينا", "بلاصة", "سمح ليا", "عفاك", "وش راك",
   "كيما قلت", "المهم", "يلاه", "بارك الله فيك", "كيراك", "كيف راك", "وش راك",
   "هاك", "كاين", "ماكاينش", "نشوفك", "وين راك", "نهار", "ليلة", "صباح", "مساء"]

/-- `server.js` darija keyword list. -/
def srvDarijaKws : List String :=
  ["كيفاش", "واش", "بزاف", "مزيان", "شنو", "فين", "دابا", "راك", "راه",
   "كيراك", "وش راك"]

/-- `server.js` french word-boundary regex alternatives. -/
def srvFrenchRe : List String :=
  ["bonjour", "salut", "merci", "comment", "ça", "va", "oui", "non", "je", "tu",
   "il", "elle", "nous", "vous", "ils", "elles", "avec", "dans", "pour", "sur",
   "par", "de", "du", "des", "le", "la", "les", "un", "une", "et", "ou", "mais",
   "donc", "car", "si", "que", "qui", "quoi", "où", "quand", "pourquoi",
   "combien", "très", "bien", "mal", "bon", "bonne", "grand", "petit",
   "nouveau", "vieux", "beau", "belle"]

/-- `server.js` french keyword list. -/
def srvFrenchKws : List String :=
  ["bonjour", "salut", "merci", "comment", "ça va", "oui", "non", "avec",
   "dans", "pour", "très", "bien"]

/-- `server.js` english word-boundary regex alternatives. -/
def srvEnglishRe : List String :=
  ["hello", "hi", "thank", "thanks", "yes", "no", "how", "what", "where",
   "when", "why", "with", "from", "about", "would", "could", "should", "will",
   "can", "may", "might", "must", "have", "has", "had", "do", "does", "did",
   "is", "are", "was", "were", "been", "being", "the", "and", "or", "but",
   "if", "then", "that", "this", "these", "those", "good", "bad", "great",
   "awesome", "nice", "cool"]

/-- `server.js` english keyword list. -/
def srvEnglishKws : List String :=
  ["hello", "hi", "thank", "thanks", "how", "what", "where", "when", "why",
   "good", "great", "awesome"]

/-- Per-language score of `server.js` `LanguageDetector.detect`:
regex hit adds `weight * 2`, each matched keyword adds `weight`
(weights: arabic 3, darija 4, french 2, english 1). -/
def srvScore (t : String) : Lang → Nat
  | .arabic  => (if rangeTest [(0x600, 0x6ff)] t then 3 * 2 else 0) + 3 * countKw srvArabicKws t
  | .darija  => (if wbTest srvDarijaRe t then 4 * 2 else 0) + 4 * countKw srvDarijaKws t
  | .french  => (if wbTest srvFrenchRe t then 2 * 2 else 0) + 2 * countKw srvFrenchKws t
  | .english => (if wbTest srvEnglishRe t then 1 * 2 else 0) + 1 * countKw srvEnglishKws t

/-- `Object.keys(scores).reduce((a, b) => scores[a] > scores[b] ? a : b)`:
fold the declaration order with the strict-greater champion rule
(ties keep `b`, the later language). -/
def pickLang (score : Lang → Nat) (a : Lang) : List Lang → Lang
  | [] => a
  | b :: rest => pickLang score (if score a > score b then a else b) rest

/-- The shared tail of `detect` in `server.js`/`part_000`: reduce over the
declaration order `[arabic, darija, french, english]`, then default to
`english` on a zero score. -/
def detectCore (score : Lang → Nat) : Lang :=
  let d := pickLang score .arabic [.darija, .french, .english]
  if score d > 0 then d else .english

/-- `server.js` `LanguageDetector.detect` (text only — there is no prior
preference parameter): pick the reduce champion, defaulting to `english`
when its score is zero. -/
def detect_srv (t : String) : Lang :=
  detectCore (srvScore t)

/-! ## Language detection — `part_000` `LanguageDetector` (lines 59–106) -/

/-- `part_000` arabic keyword list. -/
def p0ArabicKws : List String :=
  ["السلام", "مرحبا", "شكرا", "نعم", "لا", "كيف", "ماذا", "أين", "متى", "لماذا"]

/-- `part_000` darija word-boundary regex alternatives. -/
def p0DarijaRe : List String :=
  ["كيفاش", "واش", "بزاف", "مزيان", "شنو", "فين", "دابا", "راك", "راه",
   "كيراك", "وش راك"]

/-- `part_000` darija keyword list. -/
def p0DarijaKws : List String :=
  ["كيفاش", "واش", "بزاف", "مزيان", "شنو", "فين", "دابا", "راك", "راه"]

/-- `part_000` french word-boundary regex alternatives. -/
def p0FrenchRe : List String :=
  ["bonjour", "salut", "merci", "comment", "ça", "va", "oui", "non", "avec",
   "dans", "pour", "très", "bien"]

/-- `part_000` french keyword list. -/
def p0FrenchKws : List String :=
  ["bonjour", "salut", "merci", "comment", "ça va", "oui", "non"]

/-- `part_000` english word-boundary regex alternatives. -/
def p0EnglishRe : List String :=
  ["hello", "hi", "thank", "thanks", "how", "what", "where", "when", "why",
   "good", "great"]

/-- `part_000` english keyword list. -/
def p0EnglishKws : List String :=
  ["hello", "hi", "thank", "thanks", "how", "what", "good", "great"]

/-- Per-language score of `part_000` `LanguageDetector.detect`. -/
def p0Score (t : String) : Lang → Nat
  | .arabic  => (if rangeTest [(0x600, 0x6ff)] t then 3 * 2 else 0) + 3 * countKw p0ArabicKws t
  | .darija  => (if wbTest p0DarijaRe t then 4 * 2 else 0) + 4 * countKw p0DarijaKws t
  | .french  => (if wbTest p0FrenchRe t then 2 * 2 else 0) + 2 * countKw p0FrenchKws t
  | .english => (if wbTest p0EnglishRe t then 1 * 2 else 0) + 1 * countKw p0EnglishKws t

/-- `part_000` `LanguageDetector.detect`. -/
def detect_p0 (t : String) : Lang :=
  detectCore (p0Score t)

/-! ## Language detection — `part_002` `LanguageDetector` (lines 59–120):
three languages, an Arabic-script bonus of 10, and an early `english`
return for empty / whitespace-only text. -/

/-- `part_002` arabic/darija keyword list. -/
def p2ArabicKws : List String :=
  ["كيف", "شنو", "واش", "فين", "كيفاش", "دابا", "بزاف", "مزيان", "راك", "راه",
   "السلام", "مرحبا", "شكرا", "نعم", "لا", "ماذا", "أين", "متى", "لماذا",
   "شكون", "أشنو", "فوقاش", "علاش", "كيراك", "لاباس", "بخير", "الحمد"]

/-- `part_002` french keyword list (the source lists `merci` twice; the
duplicate is kept because `filter(...).length` counts it twice). -/
def p2FrenchKws : List String :=
  ["bonjour", "salut", "merci", "comment", "ça", "va", "oui", "non", "avec",
   "dans", "pour", "très", "bien", "bonsoir", "bonne", "jour", "merci",
   "beaucoup", "pardon", "excusez", "moi", "vous", "êtes", "suis", "votre",
   "notre"]

/-- `part_002` english keyword list. -/
def p2EnglishKws : List String :=
  ["hello", "hi", "thank", "thanks", "how", "what", "where", "when", "why",
   "good", "great", "please", "you", "your", "the", "and", "that", "this"]

/-- `part_002` Arabic-script character-class ranges. -/
def p2ScriptRanges : List (Nat × Nat) :=
  [(0x600, 0x6ff), (0x750, 0x77f), (0x8a0, 0x8ff), (0xfb50, 0xfdff), (0xfe70, 0xfeff)]

/-- Per-language score of `part_002` `LanguageDetector.detect`
(script bonus 10 for arabic; keyword weights arabic 3, french 2, english 1;
darija is not a key of its `scores` object). -/
def p2Score (t : String) : Lang → Nat
  | .arabic  => (if rangeTest p2ScriptRanges t then 10 else 0) + 3 * countKw p2ArabicKws t
  | .french  => 2 * countKw p2FrenchKws t
  | .english => 1 * countKw p2EnglishKws t
  | .darija  => 0

/-- `part_002` `LanguageDetector.detect`. -/
def detect_p2 (t : String) : Lang :=
  if t = "" || jsTrim t = "" then .english
  else
    let d := pickLang (p2Score t) .arabic [.french, .english]
    if p2Score t d > 0 then d else .english

/-- Modelled from the spec: the Classifier contract
`detect(text, priorPreference?) -> LanguageTag` of spec §4.1 — scores as in
the code, but "on an all-zero tie, return the prior preference if supplied,
else a fixed default language".  The code's `detect` (`detect_srv`,
`detect_p0`, `detect_p2`) has no such parameter; this definition exists only
to be compared against it. -/
def detectSpec (t : String) (prior : Option Lang) : Lang :=
  if srvScore t .arabic = 0 ∧ srvScore t .darija = 0 ∧
     srvScore t .french = 0 ∧ srvScore t .english = 0 then
    prior.getD .english
  else
    pickLang (srvScore t) .arabic [.darija, .french, .english]

/-! ## Creator-identity detection

The creator regexes of `server.js` (`isAskingAboutCreator`, lines 284–316) and
`part_000` (lines 119–158) are all of the shape
`lit (\s+ lit)*` with alternation groups and at most one optional group
(`(is\s+)?` etc.) and an optional apostrophe class (`['’]?`).  They are
embedded as lists of slots; a slot is an (optionally skippable) alternation,
each alternative being a list of literal words joined by `\s+`. -/

/-- One slot of an embedded regex. -/
structure Slot where
  optional : Bool
  alts : List (List String)

/-- A mandatory one-alternative slot holding a single word. -/
def w (s : String) : Slot := ⟨false, [[s]]⟩

/-- A mandatory alternation slot over single words. -/
def alt1 (ss : List String) : Slot := ⟨false, ss.map (fun s => [s])⟩

/-- All word sequences a slot list can denote
(cartesian product of the slots, optional slots may be skipped). -/
def expandSlots : List Slot → List (List String)
  | [] => [[]]
  | s :: rest =>
    let tails := expandSlots rest
    let withTok := s.alts.flatMap (fun a => tails.map (fun t => a ++ t))
    if s.optional then tails ++ withTok else withTok

/-- Match the word sequence at the current position: each literal must occur
verbatim, consecutive literals separated by one or more `\s` characters
(every literal starts with a non-`\s` character, so consuming the maximal
white-space run is equivalent to the regex back-tracking search). -/
def seqHere : List (List Char) → List Char → Bool
  | [], _ => true
  | lit :: rest, s =>
    lit.isPrefixOf s &&
      (match rest with
       | [] => true
       | _ :: _ =>
         match s.drop lit.length with
         | [] => false
         | c :: after => jsWs c && seqHere rest ((c :: after).dropWhile jsWs))

/-- Unanchored search for the word sequence. -/
def seqSearch (lits : List (List Char)) : List Char → Bool
  | [] => seqHere lits []
  | c :: rest => seqHere lits (c :: rest) || seqSearch lits rest

/-- `regex.test(text)` for one embedded slot pattern (case-insensitive). -/
def patTest (slots : List Slot) (t : String) : Bool :=
  (expandSlots slots).any (fun lits =>
    seqSearch (lits.map (fun word => lowerCL word.data)) (lowerCL t.data))

/-- ASCII apostrophe as a string (U+0027). -/
def apS : String := String.singleton '\''

/-- Right single quotation mark as a string (U+2019). -/
def rapS : String := String.singleton '’'

/-- The three readings of `t['’]?a` in the French creator regexes. -/
def taAlts : List (List String) :=
  [["t" ++ apS ++ "a"], ["t" ++ rapS ++ "a"], ["ta"]]

/-- The three readings of `t['’]?appelles`. -/
def tAppAlts : List (List String) :=
  [["t" ++ apS ++ "appelles"], ["t" ++ rapS ++ "appelles"], ["tappelles"]]

/-- `server.js` `creatorPatterns` (lines 285–313), one slot list per regex. -/
def srvCreatorPats : List (List Slot) :=
  [ [w "who", alt1 ["created", "made", "built", "developed", "designed", "programmed"], w "you"],
    [w "your", alt1 ["creator", "maker", "developer", "designer", "programmer", "author"]],
    [w "who", ⟨true, [["is"]]⟩, w "your", alt1 ["dad", "father", "boss", "owner", "parent"]],
    [w "who", w "are", w "you"],
    [w "tell", w "me", w "about", ⟨false, [["yourself"], ["your", "creator"]]⟩],
    [w "من", alt1 ["صنعك", "خلقك", "صممك", "برمجك", "عملك", "طورك"]],
    [w "مين", alt1 ["صنعك", "عملك", "خلقك", "صممك"]],
    [alt1 ["منشئك", "صانعك", "مطورك", "خالقك"]],
    [w "من", w "انت"],
    [w "عرفني", ⟨false, [["عليك"], ["على", "نفسك"]]⟩],
    [w "qui", ⟨false, taAlts⟩, alt1 ["créé", "fait", "développé", "conçu", "programmé"]],
    [w "ton", alt1 ["créateur", "développeur", "concepteur", "programmeur"]],
    [w "qui", w "es", w "tu"],
    [w "parle", w "moi", w "de", ⟨false, [["toi"], ["ton", "créateur"]]⟩],
    [w "شكون", alt1 ["صنعك", "عملك", "خلقك", "صممك"]],
    [w "مين", alt1 ["صنعك", "عملك", "خلقك"]],
    [⟨false, [["اللي", "صنعك"], ["اللي", "عملك"], ["اللي", "خلقك"]]⟩],
    [w "شكون", w "نت"],
    [w "عرفني", ⟨false, [["عليك"], ["على", "راسك"]]⟩],
    [w "واش", w "راك"] ]

/-- `server.js` `isAskingAboutCreator`
(`creatorPatterns.some(p => p.test(text))`). -/
def isAskingAboutCreator_srv (t : String) : Bool :=
  srvCreatorPats.any (fun p => patTest p t)

/-- `part_000` `creatorPatterns` (lines 120–155). -/
def p0CreatorPats : List (List Slot) :=
  [ [w "who", alt1 ["created", "made", "built", "developed", "designed", "programmed"], w "you"],
    [w "your", alt1 ["creator", "maker", "developer", "designer", "programmer", "author", "owner"]],
    [w "who", ⟨true, [["is"]]⟩, w "your", alt1 ["dad", "father", "boss", "owner", "parent"]],
    [w "who", ⟨true, [["are"]]⟩, w "you"],
    [w "tell", w "me", w "about", ⟨false, [["yourself"], ["your", "creator"]]⟩],
    [w "what", ⟨true, [["is"]]⟩, w "your", w "name"],
    [w "introduce", w "yourself"],
    [w "من", alt1 ["صنعك", "خلقك", "صممك", "برمجك", "عملك", "طورك"]],
    [w "مين", alt1 ["صنعك", "عملك", "خلقك", "صممك"]],
    [alt1 ["منشئك", "صانعك", "مطورك", "خالقك"]],
    [w "من", w "انت"],
    [w "ما", w "اسمك"],
    [w "عرفني", ⟨false, [["عليك"], ["على", "نفسك"]]⟩],
    [w "اسمك", w "ايه"],
    [w "qui", ⟨false, taAlts⟩, alt1 ["créé", "fait", "développé", "conçu", "programmé"]],
    [w "ton", alt1 ["créateur", "développeur", "concepteur", "programmeur"]],
    [w "qui", w "es", w "tu"],
    [w "quel", w "est", w "ton", w "nom"],
    [w "comment", w "tu", ⟨false, tAppAlts⟩],
    [w "présente", w "toi"],
    [w "شكون", alt1 ["صنعك", "عملك", "خلقك", "صممك"]],
    [w "مين", alt1 ["صنعك", "عملك", "خلقك"]],
    [w "شكون", w "نت"],
    [w "شنو", w "سميتك"],
    [w "عرفني", ⟨false, [["عليك"], ["على", "راسك"]]⟩],
    [w "واش", w "سميتك"],
    [w "إيه", w "اسمك"] ]

/-- `part_000` `isAskingAboutCreator`. -/
def isAskingAboutCreator_p0 (t : String) : Bool :=
  p0CreatorPats.any (fun p => patTest p t)

/-- `part_002` creator substrings (`isAskingAboutCreator`, lines 133–157):
plain `lowerText.includes(pattern)` tests. -/
def p2CreatorSubs : List String :=
  ["who created you", "who made you", "your creator", "who built you",
   "who are you", "your maker", "who developed you", "your developer",
   "من صنعك", "مين صنعك", "من خلقك", "شكون صنعك", "من عملك", "مين عملك",
   "من انت", "شكون نت", "منشئك", "صانعك", "مطورك",
   "qui t" ++ apS ++ "a créé", "qui es tu", "ton créateur",
   "qui t" ++ apS ++ "a fait", "ton développeur", "qui t" ++ apS ++ "a développé"]

/-- `part_002` `isAskingAboutCreator`. -/
def isAskingAboutCreator_p2 (t : String) : Bool :=
  p2CreatorSubs.any (fun p => containsSub (lowerCL p.data) (lowerCL t.data))

/-- `part_002` profile-link substrings (`isAskingAboutProfile`, lines 160–178). -/
def p2ProfileSubs : List String :=
  ["your profile", "facebook profile", "your facebook", "profile link",
   "facebook link", "your page", "creator profile", "abdou profile", "abdou link",
   "ملفك", "صفحتك", "فيسبوك", "رابط", "ملف عبدو", "صفحة عبدو",
   "بروفايل", "الملف الشخصي", "حسابك",
   "ton profil", "profil facebook", "ton facebook", "lien profil",
   "ta page", "profil abdou"]

/-- `part_002` `isAskingAboutProfile`. -/
def isAskingAboutProfile_p2 (t : String) : Bool :=
  p2ProfileSubs.any (fun p => containsSub (lowerCL p.data) (lowerCL t.data))

/-! ## AI responder — `callGroqAPI`

The HTTP calls are made abstract: each model's request outcome is an oracle
`Option String` (`none` = the axios call threw).  Everything else —
model / parameter selection, the retry structure, and the apology fallback —
is translated from the source.  `server.js` lines 359–406, `part_000`
lines 216–304. -/

/-- The request parameters of one Groq chat-completion call. -/
structure GroqCfg where
  model : String
  maxTokens : Nat
  temperature : ℚ
  topP : ℚ
  frequencyPenalty : ℚ
  presencePenalty : ℚ
  timeoutMs : Nat
  deriving DecidableEq

/-- `server.js` model table (line 360). -/
def srvAdvancedModel : String := "llama-3.1-70b-versatile"

/-- `server.js` fast model (the retry target). -/
def srvFastModel : String := "llama-3.1-8b-instant"

/-- `server.js` creative model (declared, never selected by `callGroqAPI`). -/
def srvCreativeModel : String := "mixtral-8x7b-32768"

/-- The one request shape `server.js` `callGroqAPI` uses for every call
(lines 369–384): only the model name varies between the first call and the
retry. -/
def srvGroqCfg (model : String) : GroqCfg :=
  ⟨model, 4000, 7/10, 9/10, 1/10, 1/10, 30000⟩

/-- `server.js` final fallback responses (lines 397–402). -/
def srvApology : Lang → String
  | .english => "I apologize, but I'm experiencing some technical difficulties at the moment. Please try again in a few seconds! I'm usually much more responsive than this. 🤖💫"
  | .arabic => "أعتذر، لكن أواجه بعض الصعوبات التقنية في الوقت الحالي. يرجى المحاولة مرة أخرى خلال ثوانٍ قليلة! عادة ما أكون أكثر استجابة من هذا. 🤖💫"
  | .french => "Je m'excuse, mais je rencontre quelques difficultés techniques en ce moment. Veuillez réessayer dans quelques secondes! Je suis habituellement beaucoup plus réactif que ça. 🤖💫"
  | .darija => "سمح ليا، بصح راني نواجه شوية مشاكل تقنية دابا. عاود جرب بعد شوية ثواني! عادة نكون أكثر استجابة من هاكا. 🤖💫"

/-- `server.js` `callGroqAPI`: with `useAdvancedModel = true` it requests the
advanced model and on failure calls itself once with
`useAdvancedModel = false`; that run requests the fast model with the *same*
parameters, and on failure returns the apology keyed by `language`
(`fallbackResponses[language] || fallbackResponses.english` — the table is
total, so the `||` default is the `Lang → String` totality).  The outcome of
the advanced-model request is `advO`, of the fast-model request `fastO`. -/
def callGroqAPI_srv (advO fastO : Option String) (language : Lang) :
    Bool → String
  | false =>
    match fastO with
    | some r => jsTrim r
    | none => srvApology language
  | true =>
    match advO with
    | some r => jsTrim r
    | none =>
      match fastO with
      | some r => jsTrim r
      | none => srvApology language

/-- The Groq requests `server.js` `callGroqAPI` actually issues, in order. -/
def srvGroqAttempts (advO : Option String) : Bool → List GroqCfg
  | false => [srvGroqCfg srvFastModel]
  | true =>
    srvGroqCfg srvAdvancedModel ::
      (match advO with
       | some _ => []
       | none => [srvGroqCfg srvFastModel])

/-- `part_000` model table (lines 217–221). -/
def p0ArabicModel : String := "allam-2-7b"

/-- `part_000` english model. -/
def p0EnglishModel : String := "llama-3.3-70b-versatile"

/-- `part_000` fallback model. -/
def p0FallbackModel : String := "llama-3.1-8b-instant"

/-- `part_000` `callGroqAPI`'s internal `detectLanguage`: the last
user message contains a character of the extended Arabic ranges. -/
def groqIsArabic_p0 (messages : List Turn) : Bool :=
  match (messages.filter (fun m => m.role = Role.user)).getLast? with
  | none => false
  | some m => rangeTest p2ScriptRanges m.content

/-- `part_000` primary request parameters (`config`, lines 244–252). -/
def p0PrimaryCfg (isArabic : Bool) : GroqCfg :=
  if isArabic then ⟨p0ArabicModel, 200, 4/10, 7/10, 3/10, 3/10, 30000⟩
  else ⟨p0EnglishModel, 250, 5/10, 8/10, 3/10, 3/10, 30000⟩

/-- `part_000` fallback request parameters (lines 278–293). -/
def p0FallbackCfg : GroqCfg :=
  ⟨p0FallbackModel, 180, 4/10, 7/10, 3/10, 3/10, 20000⟩

/-- `part_000` static apology strings (lines 300–302). -/
def p0Apology (isArabic : Bool) : String :=
  if isArabic then "خطأ تقني، جرب مرة أخرى. 🤖"
  else "Technical error, try again. 🤖"

/-- `part_000` `callGroqAPI`: primary request for the language-selected
model, on failure one retry against the fallback model (guarded by
`selectedModel !== models.fallback`, which always holds), on a second
failure the static apology chosen by the internal Arabic/English
detection.  `primO` / `fbO` are the outcomes of the two requests. -/
def callGroqAPI_p0 (primO fbO : Option String) (messages : List Turn) : String :=
  let isAr := groqIsArabic_p0 messages
  let selectedModel := if isAr then p0ArabicModel else p0EnglishModel
  match primO with
  | some r => jsTrim r
  | none =>
    if selectedModel ≠ p0FallbackModel then
      match fbO with
      | some r => jsTrim r
      | none => p0Apology isAr
    else p0Apology isAr

/-- The Groq requests `part_000` `callGroqAPI` actually issues, in order. -/
def p0GroqAttempts (primO : Option String) (messages : List Turn) : List GroqCfg :=
  let isAr := groqIsArabic_p0 messages
  let selectedModel := if isAr then p0ArabicModel else p0EnglishModel
  p0PrimaryCfg isAr ::
    (match primO with
     | some _ => []
     | none => if selectedModel ≠ p0FallbackModel then [p0FallbackCfg] else [])

/-! ## Message-processing state machines

`processMessage` of the three cited variants is embedded as a function from
(time, external-call oracles, sender, text, attachments, state) to
(state, list of performed actions).  Canned reply *texts* are abstracted to
tagged values (`Reply`): the routing claims are about which table entry is
selected, never about its wording.  Outbound sends that can themselves fail
are modelled as succeeding (the claims do not concern delivery-failure
paths). -/

/-- Which canned (or AI) reply a send carries. -/
inductive Reply
  | media (mk : MediaKind) (lang : Lang)
  | imageAnalysis (lang : Lang)
  | creator (lang : Lang)
  | profileLink (lang : Lang)
  | welcome (firstName : String) (lang : Lang)
  | ai (text : String)
  deriving DecidableEq

/-- Observable actions of a `processMessage` run, in program order. -/
inductive Act
  | markSeen
  | typingOn
  | typingOff
  | fetchProfile
  | think
  | callAI
  | send (r : Reply)
  deriving DecidableEq

/-- The replies sent during a run. -/
def sendsOf (acts : List Act) : List Reply :=
  acts.filterMap (fun a => match a with | .send r => some r | _ => none)

/-- Association-list lookup (models `Map.prototype.get`). -/
def alGet (k : String) : List (String × β) → Option β
  | [] => none
  | (k', v) :: rest => if k' = k then some v else alGet k rest

/-- Association-list overwrite (models `Map.prototype.set`). -/
def alSet (k : String) (v : β) : List (String × β) → List (String × β)
  | [] => [(k, v)]
  | (k', v') :: rest => if k' = k then (k, v) :: rest else (k', v') :: alSet k v rest

/-- Association-list removal (models `Map.prototype.delete`). -/
def alDel (k : String) (l : List (String × β)) : List (String × β) :=
  l.filter (fun p => if p.1 = k then false else true)

/-- Outcomes of the external calls a `processMessage` run may make:
the Facebook profile fetch (field missing / call failed ⟹ `none`) and the
two Groq request outcomes consumed by `callGroqAPI`. -/
structure Oracle where
  fbFirst : Option String
  fbLast : Option String
  fbLocale : Option String
  groqPrimary : Option String
  groqFallback : Option String

/-- `server.js` user profile record (fields read or written by the code). -/
structure ProfSrv where
  firstName : String
  lastName : String
  locale : String
  conversationStarted : Nat
  messageCount : Nat
  lastMessageTime : Option Nat
  deriving DecidableEq

/-- `part_000` user profile record. -/
structure ProfP0 where
  firstName : String
  conversationStarted : Nat
  messageCount : Nat
  lastMessageTime : Option Nat
  deriving DecidableEq

/-- `part_002` user profile record. -/
structure ProfP2 where
  firstName : String
  fullName : String
  conversationStarted : Nat
  messageCount : Nat
  isWelcomed : Bool
  lastMessageTime : Option Nat
  deriving DecidableEq

/-- `server.js` global state: `userProfiles` and `conversationMemory`. -/
structure StSrv where
  profiles : List (String × ProfSrv)
  convs : List (String × List Turn)
  deriving DecidableEq

/-- `part_000` global state. -/
structure StP0 where
  profiles : List (String × ProfP0)
  convs : List (String × List Turn)
  deriving DecidableEq

/-- `part_002` global state. -/
structure StP2 where
  profiles : List (String × ProfP2)
  convs : List (String × List Turn)
  deriving DecidableEq

/-- The media kind reported by `part_000`/`part_002` `processMessage`:
first attachment whose type is image/audio/video, else the generic notice. -/
def mediaKindOf (atts : List AttachType) : MediaKind :=
  match atts.find? (fun a =>
      a = AttachType.image || a = AttachType.audio || a = AttachType.video) with
  | some AttachType.image => .image
  | some AttachType.audio => .audio
  | some AttachType.video => .video
  | _ => .media

/-- `server.js` `useAdvancedModel` heuristic (lines 575–587). -/
def useAdvancedModel_srv (t : String) : Bool :=
  t.length > 100 || kwHitCase t "?" || kwHitCase t "explain" || kwHitCase t "how" ||
  kwHitCase t "why" || kwHitCase t "what" || kwHitCase t "كيف" || kwHitCase t "ماذا" ||
  kwHitCase t "لماذا" || kwHitCase t "comment" || kwHitCase t "pourquoi" ||
  kwHitCase t "كيفاش" || kwHitCase t "علاش"

/-- `server.js` `processMessage` (lines 505–618).  Order of operations:
typing indicator, profile get-or-create (+count/timestamp update),
conversation read, language detection, creator check, image-attachment
check (only `image` attachments get the canned analysis reply; others fall
through), thinking delay, push user turn (prefixed with the first name),
trim to the last 20, AI call, push assistant turn, store, reply. -/
def processMessage_srv (now : Nat) (orac : Oracle) (sid : String)
    (text : String) (atts : List AttachType) (st : StSrv) : StSrv × List Act :=
  let fetched := alGet sid st.profiles
  let prof0 : ProfSrv :=
    match fetched with
    | some p => p
    | none =>
      { firstName := orac.fbFirst.getD "Friend", lastName := orac.fbLast.getD "",
        locale := orac.fbLocale.getD "en_US", conversationStarted := now,
        messageCount := 0, lastMessageTime := none }
  let fetchActs : List Act := match fetched with | some _ => [] | none => [.fetchProfile]
  let prof := { prof0 with messageCount := prof0.messageCount + 1,
                           lastMessageTime := some now }
  let profiles := alSet sid prof st.profiles
  let conversation := (alGet sid st.convs).getD []
  let lang := detect_srv text
  if isAskingAboutCreator_srv text then
    (⟨profiles, st.convs⟩, .typingOn :: fetchActs ++ [.send (.creator lang)])
  else if atts.any (fun a => a = AttachType.image) then
    (⟨profiles, st.convs⟩, .typingOn :: fetchActs ++ [.send (.imageAnalysis lang)])
  else
    let contextualMessage := prof.firstName ++ ": " ++ text
    let conv1 := conversation ++ [⟨Role.user, contextualMessage⟩]
    let conv2 := if conv1.length > 20 then conv1.drop (conv1.length - 20) else conv1
    let aiResp := callGroqAPI_srv orac.groqPrimary orac.groqFallback lang
      (useAdvancedModel_srv text)
    let conv3 := conv2 ++ [⟨Role.assistant, aiResp⟩]
    (⟨profiles, alSet sid conv3 st.convs⟩,
     .typingOn :: fetchActs ++ [.think, .callAI, .typingOff, .send (.ai aiResp)])

/-- `part_000` `processMessage` (lines 383–486).  Order of operations:
typing indicator, profile get-or-create (+count/timestamp), language
detection, media attachments first (any attachment short-circuits to the
media notice), empty/whitespace text returns without a reply, creator
check, thinking delay, conversation append, trim to last 20, AI call,
append reply, store, reply. -/
def processMessage_p0 (now : Nat) (orac : Oracle) (sid : String)
    (text : String) (atts : List AttachType) (st : StP0) : StP0 × List Act :=
  let fetched := alGet sid st.profiles
  let prof0 : ProfP0 :=
    match fetched with
    | some p => p
    | none =>
      { firstName := orac.fbFirst.getD "Friend", conversationStarted := now,
        messageCount := 0, lastMessageTime := none }
  let fetchActs : List Act := match fetched with | some _ => [] | none => [.fetchProfile]
  let prof := { prof0 with messageCount := prof0.messageCount + 1,
                           lastMessageTime := some now }
  let profiles := alSet sid prof st.profiles
  let lang := detect_p0 text
  if atts ≠ [] then
    (⟨profiles, st.convs⟩,
     .typingOn :: fetchActs ++ [.typingOff, .send (.media (mediaKindOf atts) lang)])
  else if text = "" || jsTrim text = "" then
    (⟨profiles, st.convs⟩, .typingOn :: fetchActs ++ [.typingOff])
  else if isAskingAboutCreator_p0 text then
    (⟨profiles, st.convs⟩,
     .typingOn :: fetchActs ++ [.typingOff, .send (.creator lang)])
  else
    let conversation := (alGet sid st.convs).getD []
    let conv1 := conversation ++ [⟨Role.user, text⟩]
    let conv2 := if conv1.length > 20 then conv1.drop (conv1.length - 20) else conv1
    let aiResp := callGroqAPI_p0 orac.groqPrimary orac.groqFallback conv2
    let conv3 := conv2 ++ [⟨Role.assistant, aiResp⟩]
    (⟨profiles, alSet sid conv3 st.convs⟩,
     .typingOn :: fetchActs ++ [.think, .callAI, .typingOff, .send (.ai aiResp)])

/-- `part_002` `processMessage` (lines 463–593).  Order of operations:
mark seen, typing indicator, profile get-or-create (`isFirstTime` is true
exactly when the profile was created by this call), count/timestamp,
language detection, media attachments first, empty/whitespace text returns
without a reply, first-time welcome (flips `isWelcomed` to `true`),
creator check, profile-link check, thinking delay, conversation append,
trim to last 20, AI call (structurally identical to `part_000`'s
`callGroqAPI`), append reply, store, reply. -/
def processMessage_p2 (now : Nat) (orac : Oracle) (sid : String)
    (text : String) (atts : List AttachType) (st : StP2) : StP2 × List Act :=
  let fetched := alGet sid st.profiles
  let prof0 : ProfP2 :=
    match fetched with
    | some p => p
    | none =>
      { firstName := orac.fbFirst.getD "Friend",
        fullName := match orac.fbFirst with
                    | some f => jsTrim (f ++ " " ++ orac.fbLast.getD "")
                    | none => "Friend",
        conversationStarted := now, messageCount := 0, isWelcomed := false,
        lastMessageTime := none }
  let isFirstTime := fetched.isNone
  let fetchActs : List Act := match fetched with | some _ => [] | none => [.fetchProfile]
  let prof := { prof0 with messageCount := prof0.messageCount + 1,
                           lastMessageTime := some now }
  let profiles := alSet sid prof st.profiles
  let lang := detect_p2 text
  if atts ≠ [] then
    (⟨profiles, st.convs⟩,
     .markSeen :: .typingOn :: fetchActs ++
       [.typingOff, .send (.media (mediaKindOf atts) lang)])
  else if text = "" || jsTrim text = "" then
    (⟨profiles, st.convs⟩, .markSeen :: .typingOn :: fetchActs ++ [.typingOff])
  else if isFirstTime && !prof.isWelcomed then
    (⟨alSet sid { prof with isWelcomed := true } st.profiles, st.convs⟩,
     .markSeen :: .typingOn :: fetchActs ++
       [.typingOff, .send (.welcome prof.firstName lang)])
  else if isAskingAboutCreator_p2 text then
    (⟨profiles, st.convs⟩,
     .markSeen :: .typingOn :: fetchActs ++ [.typingOff, .send (.creator lang)])
  else if isAskingAboutProfile_p2 text then
    (⟨profiles, st.convs⟩,
     .markSeen :: .typingOn :: fetchActs ++ [.typingOff, .send (.profileLink lang)])
  else
    let conversation := (alGet sid st.convs).getD []
    let conv1 := conversation ++ [⟨Role.user, text⟩]
    let conv2 := if conv1.length > 20 then conv1.drop (conv1.length - 20) else conv1
    let aiResp := callGroqAPI_p0 orac.groqPrimary orac.groqFallback conv2
    let conv3 := conv2 ++ [⟨Role.assistant, aiResp⟩]
    (⟨profiles, alSet sid conv3 st.convs⟩,
     .markSeen :: .typingOn :: fetchActs ++
       [.think, .callAI, .typingOff, .send (.ai aiResp)])

/-! ## `part_001` conversation store -/

/-- `part_001` `MAX_CONVERSATION_LENGTH` (line 27). -/
def maxConvLen_p1 : Nat := 20

/-- `part_001` stored turn (`{ role, message, timestamp }`; roles are the
raw strings `user` / `assistant`). -/
structure TurnP1 where
  role : String
  message : String
  timestamp : Nat
  deriving DecidableEq

/-- The conversation-level effect of `part_001` `addToConversation`
(lines 119–129): push, then `shift()` the oldest turn when the cap is
exceeded. -/
def addTurn_p1 (conv : List TurnP1) (t : TurnP1) : List TurnP1 :=
  let c := conv ++ [t]
  if c.length > maxConvLen_p1 then c.tail else c

/-- `part_001` `addToConversation` on the `conversations` map
(`getConversationContext` materialises the empty list for new senders). -/
def addToConversation_p1 (convs : List (String × List TurnP1)) (uid : String)
    (role message : String) (ts : Nat) : List (String × List TurnP1) :=
  alSet uid (addTurn_p1 ((alGet uid convs).getD []) ⟨role, message, ts⟩) convs

/-! ## Janitor (`cron.schedule`) -/

/-- `const cutoffTime = new Date(Date.now() - 24 * 60 * 60 * 1000)`. -/
def janitorCutoff (now : Nat) : Nat := now - 24 * 60 * 60 * 1000

/-- The hourly cleanup of `server.js` (lines 713–725) and `part_000`
(lines 557–569): iterate `userProfiles`; for every profile whose
`lastMessageTime` is set and precedes the cutoff, delete that sender's
entry from `conversationMemory`.  `userProfiles` itself is never written.
Generic in the profile type; `lastOf` projects `lastMessageTime`. -/
def cronSweep (lastOf : π → Option Nat) (cutoff : Nat)
    (profiles : List (String × π)) (convs : List (String × List Turn)) :
    List (String × π) × List (String × List Turn) :=
  (profiles,
   profiles.foldl (fun cs kp =>
     match lastOf kp.2 with
     | some ts => if ts < cutoff then alDel kp.1 cs else cs
     | none => cs) convs)

/-- `server.js` janitor. -/
def cronSweep_srv (cutoff : Nat) (profiles : List (String × ProfSrv))
    (convs : List (String × List Turn)) :
    List (String × ProfSrv) × List (String × List Turn) :=
  cronSweep ProfSrv.lastMessageTime cutoff profiles convs

/-- `part_000` janitor. -/
def cronSweep_p0 (cutoff : Nat) (profiles : List (String × ProfP0))
    (convs : List (String × List Turn)) :
    List (String × ProfP0) × List (String × List Turn) :=
  cronSweep ProfP0.lastMessageTime cutoff profiles convs

/-! ## `POST /webhook` event dispatch -/

/-- A messaging event's `message` payload. -/
structure WebhookMsg where
  text : Option String
  attachments : Option (List AttachType)
  deriving DecidableEq

/-- One messaging event. -/
structure WebhookEvent where
  senderId : String
  message : Option WebhookMsg
  postback : Option (String × String)
  deriving DecidableEq

/-- One envelope entry (`entry.id` is the receiving page's id). -/
structure WebhookEntry where
  id : String
  messaging : List WebhookEvent
  deriving DecidableEq

/-- A background task spawned with `setImmediate`. -/
inductive Task
  | process (senderId : String) (text : String) (atts : List AttachType)
  deriving DecidableEq

/-- Sender of a spawned task. -/
def Task.senderOf : Task → String
  | .process s _ _ => s

/-- JavaScript truthiness of an optional string (`undefined` and `""` are
falsy). -/
def jsTruthyStr : Option String → Bool
  | none => false
  | some s => s ≠ ""

/-- `server.js` `POST /webhook` handling of one messaging event
(lines 644–674): skip the event when `webhookEvent.sender.id === entry.id`,
otherwise spawn `processMessage` for a message carrying text or an
attachments array, or for a postback. -/
def eventTask_srv (pageId : String) (ev : WebhookEvent) : Option Task :=
  if ev.senderId = pageId then none
  else
    match ev.message with
    | some m =>
      if jsTruthyStr m.text || m.attachments.isSome then
        some (.process ev.senderId (m.text.getD "") (m.attachments.getD []))
      else none
    | none =>
      match ev.postback with
      | some (title, payload) =>
        some (.process ev.senderId (title ++ ": " ++ payload) [])
      | none => none

/-- `part_000` (lines 510–532) / `part_002` (lines 617–639) event handling:
identical to `server.js` except that a message event spawns
`processMessage` unconditionally. -/
def eventTask_p0p2 (pageId : String) (ev : WebhookEvent) : Option Task :=
  if ev.senderId = pageId then none
  else
    match ev.message with
    | some m => some (.process ev.senderId (m.text.getD "") (m.attachments.getD []))
    | none =>
      match ev.postback with
      | some (title, payload) =>
        some (.process ev.senderId (title ++ ": " ++ payload) [])
      | none => none

/-- All tasks spawned for one entry: the handler's only effect. -/
def entryTasks (f : String → WebhookEvent → Option Task) (e : WebhookEntry) :
    List Task :=
  e.messaging.filterMap (f e.id)

/-! ## Delivery layer — `sendMessage` long-text chunking

`server.js` (lines 444–457) and `part_000` (lines 326–335) share verbatim:

```
if (messageText.length > 2000) {
    const chunks = messageText.match(/.{1,1900}(\s|$)/g) || [messageText];
    for (let i = 0; i < chunks.length && i < 3; i++) {
        await sendMessage(senderId, chunks[i].trim());
        if (i < chunks.length - 1) {
            await new Promise(resolve => setTimeout(resolve, 1000));
        }
    }
    return;
}
```

The ECMAScript global match of `/.{1,1900}(\s|$)/` is embedded exactly:
at a given start, a consumed length `t` is *valid* when `1 ≤ t ≤ 1900`, the
`t` consumed characters contain no line terminator (`.`), and the next
character is `\s` (consumed by the group) or the position is end-of-input
(`$`); the greedy engine takes the largest valid `t`, and when no `t` is
valid the scan restarts one character later (that character is skipped). -/

/-- The `{1,1900}` quantifier bound. -/
def chunkCap : Nat := 1900

/-- The `messageText.length > 2000` threshold. -/
def msgCap : Nat := 2000

/-- `t` is a valid consumed length for `.{1,1900}(\s|$)` at the start of `s`. -/
def chunkValid (s : List Char) (t : Nat) : Bool :=
  1 ≤ t && t ≤ chunkCap && (s.take t).all (fun c => !lineTerm c) &&
    (t = s.length ||
     (match s[t]? with
      | some c => jsWs c
      | none => false))

/-- The greedy (largest) valid consumed length, if any. -/
def findT (s : List Char) : Option Nat :=
  ((List.range (min chunkCap s.length + 1)).filter (chunkValid s)).max?

/-- What a successful match consumes: the `\s` of the group is part of the
match except in the `$` case. -/
def consumedLen (s : List Char) (t : Nat) : Nat :=
  if t < s.length then t + 1 else t

theorem findT_valid {s : List Char} {t : Nat} (h : findT s = some t) :
    chunkValid s t = true := by
  have hm := (List.max?_eq_some_iff'.1 h).1
  exact (List.mem_filter.1 hm).2

theorem findT_pos {s : List Char} {t : Nat} (h : findT s = some t) : 1 ≤ t := by
  have hv := findT_valid h
  unfold chunkValid at hv
  simp only [Bool.and_eq_true, decide_eq_true_eq] at hv
  exact hv.1.1.1

theorem findT_le_cap {s : List Char} {t : Nat} (h : findT s = some t) :
    t ≤ chunkCap := by
  have hv := findT_valid h
  unfold chunkValid at hv
  simp only [Bool.and_eq_true, decide_eq_true_eq] at hv
  exact hv.1.1.2

theorem findT_le_len {s : List Char} {t : Nat} (h : findT s = some t) :
    t ≤ s.length := by
  have hm := (List.max?_eq_some_iff'.1 h).1
  have := List.mem_range.1 (List.mem_filter.1 hm).1
  omega

/-- The successful matches of the global regex scan, in order: on a match,
emit the consumed characters and continue after them; on a failure, skip
one character and rescan. -/
def chunksFrom : List Char → List (List Char)
  | [] => []
  | c :: rest =>
    match h : findT (c :: rest) with
    | some t =>
      (c :: rest).take (consumedLen (c :: rest) t) ::
        chunksFrom ((c :: rest).drop (consumedLen (c :: rest) t))
    | none => chunksFrom rest
termination_by s => s.length
decreasing_by
  · have h1 := findT_pos h
    simp only [List.length_drop, List.length_cons]
    unfold consumedLen
    split <;> omega
  · simp

theorem chunksFrom_cons_some {c : Char} {rest : List Char} {t : Nat}
    (ht : findT (c :: rest) = some t) :
    chunksFrom (c :: rest) =
      (c :: rest).take (consumedLen (c :: rest) t) ::
        chunksFrom ((c :: rest).drop (consumedLen (c :: rest) t)) := by
  rw [chunksFrom]
  split
  · next t' ht' =>
    rw [ht] at ht'
    cases ht'
    rfl
  · next ht' =>
    rw [ht] at ht'
    cases ht'

theorem chunksFrom_cons_none {c : Char} {rest : List Char}
    (ht : findT (c :: rest) = none) :
    chunksFrom (c :: rest) = chunksFrom rest := by
  rw [chunksFrom]
  split
  · next t' ht' =>
    rw [ht] at ht'
    cases ht'
  · rfl

/-- `messageText.match(...) || [messageText]`. -/
def chunksOrWhole (s : List Char) : List (List Char) :=
  if (chunksFrom s).isEmpty then [s] else chunksFrom s

theorem trimCL_length_le (l : List Char) : (trimCL l).length ≤ l.length := by
  unfold trimCL
  have h1 := (List.dropWhile_sublist (l := l) jsWs).length_le
  have h2 := (List.dropWhile_sublist (l := (l.dropWhile jsWs).reverse) jsWs).length_le
  simp only [List.length_reverse] at *
  omega

/-- Every emitted raw chunk is non-empty and at most 1901 characters
(1900 consumed by `.` plus the matched `\s`). -/
theorem chunksFrom_mem {s raw : List Char} (h : raw ∈ chunksFrom s) :
    raw ≠ [] ∧ raw.length ≤ chunkCap + 1 := by
  induction s using chunksFrom.induct with
  | case1 => simp [chunksFrom] at h
  | case2 c rest t ht ih =>
    rw [chunksFrom, ht] at h
    rcases List.mem_cons.1 h with rfl | h'
    · have h1 := findT_pos ht
      have h2 := findT_le_cap ht
      have h3 := findT_le_len ht
      constructor
      · intro hnil
        have hlen := congrArg List.length hnil
        rw [List.length_take] at hlen
        simp only [List.length_nil, List.length_cons] at hlen h3
        unfold consumedLen at hlen
        simp only [List.length_cons] at hlen
        split at hlen <;> omega
      · rw [List.length_take]
        unfold consumedLen
        split <;> omega
    · exact ih h'
  | case3 c rest ht ih =>
    rw [chunksFrom, ht] at h
    exact ih h

/-- Line terminators are ECMAScript white-space. -/
theorem jsWs_of_lineTerm {c : Char} (h : lineTerm c = true) : jsWs c = true := by
  unfold lineTerm at h
  simp only [Bool.or_eq_true, decide_eq_true_eq] at h
  rcases h with ((h | h) | h) | h
  · subst h; decide
  · subst h; decide
  · unfold jsWs
    simp only [h]
    simp
  · unfold jsWs
    simp only [h]
    simp

theorem chunkValid_le_len {s : List Char} {t : Nat}
    (hv : chunkValid s t = true) : t ≤ s.length := by
  unfold chunkValid at hv
  simp only [Bool.and_eq_true, decide_eq_true_eq] at hv
  rcases hv with ⟨-, hend⟩
  rcases Bool.or_eq_true_iff.1 hend with he | hw
  · simp only [decide_eq_true_eq] at he
    omega
  · rcases hm : s[t]? with _ | c2
    · rw [hm] at hw; simp at hw
    · have : t < s.length := by
        by_contra hge
        rw [List.getElem?_eq_none (by omega)] at hm
        exact Option.noConfusion hm
      omega

/-- Any valid consumed length witnesses that the greedy search succeeds. -/
theorem findT_isSome_of_valid {s : List Char} {t : Nat}
    (hv : chunkValid s t = true) : (findT s).isSome = true := by
  have hlen := chunkValid_le_len hv
  have hcap : t ≤ chunkCap := by
    unfold chunkValid at hv
    simp only [Bool.and_eq_true, decide_eq_true_eq] at hv
    exact hv.1.1.2
  have hmem : t ∈ (List.range (min chunkCap s.length + 1)).filter (chunkValid s) :=
    List.mem_filter.2 ⟨List.mem_range.2 (by omega), hv⟩
  unfold findT
  rcases hmax : ((List.range (min chunkCap s.length + 1)).filter (chunkValid s)).max? with
    _ | u
  · rw [List.max?_eq_none_iff] at hmax
    rw [hmax] at hmem
    exact absurd hmem (List.not_mem_nil t)
  · simp

/-- If the global scan finds no match at all, every character of the text is
a line terminator (`.` can never start consuming). -/
theorem chunksFrom_eq_nil {s : List Char} (h : chunksFrom s = []) :
    ∀ c ∈ s, lineTerm c = true := by
  induction s using chunksFrom.induct with
  | case1 => simp
  | case2 c rest t ht ih =>
    rw [chunksFrom, ht] at h
    simp at h
  | case3 c rest ht ih =>
    rw [chunksFrom, ht] at h
    intro x hx
    rcases List.mem_cons.1 hx with rfl | hx'
    · by_contra hc
      -- a non-line-terminator head admits the valid consumed length 1
      have hv : chunkValid (x :: rest) 1 = true := by
        unfold chunkValid
        simp only [Bool.and_eq_true, decide_eq_true_eq]
        refine ⟨⟨⟨Nat.le_refl 1, by unfold chunkCap; omega⟩, ?_⟩, ?_⟩
        · simp only [List.take_succ_cons, List.take_zero, List.all_cons, List.all_nil,
            Bool.and_true, Bool.not_eq_true']
          exact Bool.eq_false_iff.2 (fun hcontra => hc hcontra)
        · cases rest with
          | nil => simp
          | cons d ds =>
            have hd : jsWs d = true := jsWs_of_lineTerm (ih h d (by simp))
            rw [Bool.or_eq_true_iff]
            right
            simpa using hd
      have := findT_isSome_of_valid hv
      rw [ht] at this
      exact Bool.noConfusion this
    · exact ih h x hx'

/-- All-line-terminator text trims to the empty string. -/
theorem trimCL_eq_nil_of_ws {l : List Char} (h : ∀ c ∈ l, jsWs c = true) :
    trimCL l = [] := by
  unfold trimCL
  have h1 : l.dropWhile jsWs = [] := List.dropWhile_eq_nil_iff.2 (fun c hc => h c hc)
  rw [h1]
  simp

/-- The text has no white-space-free run longer than the chunk bound:
this is the regime in which the chunk regex behaves as the splitter the
specification describes. -/
def RunsOK (s : List Char) : Prop :=
  ∀ l m r : List Char, s = l ++ m ++ r → (∀ c ∈ m, jsWs c = false) →
    m.length ≤ chunkCap

theorem runsOK_append_right {a b : List Char} (h : RunsOK (a ++ b)) :
    RunsOK b := by
  intro l m r hb hm
  exact h (a ++ l) m r (by rw [hb]; simp) hm

theorem runsOK_cons {c : Char} {s : List Char} (h : RunsOK (c :: s)) :
    RunsOK s :=
  runsOK_append_right (a := [c]) h

theorem runsOK_drop {s : List Char} (h : RunsOK s) (k : Nat) :
    RunsOK (s.drop k) :=
  runsOK_append_right (a := s.take k) (by rwa [List.take_append_drop])

/-- The head of a non-empty `dropWhile` result fails the predicate. -/
theorem dropWhile_head_false {p : α → Bool} {l : List α} {d : α} {ds : List α}
    (h : l.dropWhile p = d :: ds) : p d = false := by
  induction l with
  | nil => simp at h
  | cons a as ih =>
    rw [List.dropWhile_cons] at h
    split at h
    · exact ih h
    · cases h
      exact Bool.eq_false_iff.2 ‹¬ p d = true›

/-- With no over-long run, the greedy search succeeds at every position whose
head is not white space (take the leading white-space-free run: its end is
either the end of the text or a white-space character). -/
theorem findT_isSome_of_head {s : List Char} {c : Char} (hr : RunsOK (c :: s))
    (hc : jsWs c = false) : (findT (c :: s)).isSome = true := by
  set l := c :: s with hl
  set tw := l.takeWhile (fun x => !jsWs x) with htw
  have hsplit : tw ++ l.dropWhile (fun x => !jsWs x) = l := by
    rw [htw]
    exact List.takeWhile_append_dropWhile _ _
  have htw1 : 1 ≤ tw.length := by
    rw [htw, hl, List.takeWhile_cons]
    simp [hc]
  have htwmem : ∀ x ∈ tw, jsWs x = false := by
    intro x hx
    have := List.mem_takeWhile_imp hx
    simpa using this
  have htwcap : tw.length ≤ chunkCap :=
    hr [] tw (l.dropWhile (fun x => !jsWs x)) (by simpa using hsplit.symm) htwmem
  have htake : l.take tw.length = tw := by
    conv_lhs => rw [← hsplit]
    exact List.take_left tw _
  have hv : chunkValid l tw.length = true := by
    unfold chunkValid
    simp only [Bool.and_eq_true, decide_eq_true_eq]
    refine ⟨⟨⟨htw1, htwcap⟩, ?_⟩, ?_⟩
    · rw [htake, List.all_eq_true]
      intro x hx
      have hxw := htwmem x hx
      cases hlt : lineTerm x with
      | false => simp
      | true => exact absurd (jsWs_of_lineTerm hlt) (by simp [hxw])
    · rcases hdw : l.dropWhile (fun x => !jsWs x) with _ | ⟨d, ds⟩
      · have hlen : tw.length = l.length := by
          conv_rhs => rw [← hsplit, hdw]
          simp
        simp [hlen]
      · have hd : jsWs d = true := by
          have := dropWhile_head_false hdw
          simpa using this
        have hget : l[tw.length]? = some d := by
          conv_lhs => rw [← hsplit, hdw]
          rw [List.getElem?_append_right (Nat.le_refl _)]
          simp
        rw [hget]
        simp [hd]
  exact findT_isSome_of_valid hv

/-- `Covers s cs`: the text `s` is exactly the chunks `cs` in original order,
interleaved only with skipped white-space characters; every chunk is
non-empty, at most 1901 characters, and ends with a white-space character
unless it is the final chunk running to the end of the text. -/
inductive Covers : List Char → List (List Char) → Prop
  | nil : Covers [] []
  | gap {c : Char} {s : List Char} {cs : List (List Char)} :
      jsWs c = true → Covers s cs → Covers (c :: s) cs
  | chunk {raw s : List Char} {cs : List (List Char)} :
      raw ≠ [] → raw.length ≤ chunkCap + 1 →
      (∃ cl, raw.getLast? = some cl ∧ jsWs cl = true) →
      Covers s cs → Covers (raw ++ s) (raw :: cs)
  | final {raw : List Char} :
      raw ≠ [] → raw.length ≤ chunkCap → Covers raw [raw]

/-- On text without over-long white-space-free runs, the global regex scan
splits the text on white-space boundaries: the emitted chunks cover the
whole text in order, with only white-space characters between them. -/
theorem covers_chunksFrom : ∀ s : List Char, RunsOK s → Covers s (chunksFrom s) := by
  intro s
  induction s using chunksFrom.induct with
  | case1 =>
    intro _
    simp only [chunksFrom]
    exact Covers.nil
  | case2 c rest t ht ih =>
    intro hr
    rw [chunksFrom_cons_some ht]
    have h1 := findT_pos ht
    have h2 := findT_le_cap ht
    have h3 := findT_le_len ht
    by_cases hlt : t < (c :: rest).length
    · -- the match consumed its trailing white-space character
      have hlt' : t < rest.length + 1 := by simpa using hlt
      have hk : consumedLen (c :: rest) t = t + 1 := by
        unfold consumedLen
        exact if_pos hlt
      have hws : ∃ d, (c :: rest)[t]? = some d ∧ jsWs d = true := by
        have hv := findT_valid ht
        unfold chunkValid at hv
        simp only [Bool.and_eq_true, decide_eq_true_eq] at hv
        rcases Bool.or_eq_true_iff.1 hv.2 with he | hw
        · simp only [decide_eq_true_eq] at he
          simp only [List.length_cons] at he
          omega
        · rcases hm : (c :: rest)[t]? with _ | d
          · rw [hm] at hw; simp at hw
          · rw [hm] at hw
            exact ⟨d, rfl, hw⟩
      rcases hws with ⟨d, hd, hdws⟩
      have hco := ih (runsOK_drop hr _)
      have hchunk := @Covers.chunk
        ((c :: rest).take (consumedLen (c :: rest) t))
        ((c :: rest).drop (consumedLen (c :: rest) t))
        (chunksFrom ((c :: rest).drop (consumedLen (c :: rest) t)))
        (by
          intro hnil
          have hlen0 := congrArg List.length hnil
          rw [List.length_take, hk] at hlen0
          simp only [List.length_nil, List.length_cons] at hlen0
          omega)
        (by
          rw [List.length_take, hk]
          simp only [List.length_cons]
          omega)
        (by
          refine ⟨d, ?_, hdws⟩
          rw [hk, List.getLast?_eq_getElem?, List.length_take]
          simp only [List.length_cons]
          have hmin : min (t + 1) (rest.length + 1) = t + 1 := by omega
          rw [hmin, Nat.add_sub_cancel, List.getElem?_take_of_lt (by omega)]
          exact hd)
        hco
      rw [List.take_append_drop] at hchunk
      exact hchunk
    · -- `$` matched: the chunk runs to the end of the text
      have hlen : t = (c :: rest).length := by
        simp only [List.length_cons] at h3 hlt ⊢
        omega
      have hk : consumedLen (c :: rest) t = t := by
        unfold consumedLen
        exact if_neg hlt
      rw [hk, hlen, List.take_length, List.drop_length, chunksFrom]
      refine Covers.final (by simp) ?_
      rw [← hlen]
      exact h2
  | case3 c rest ht ih =>
    intro hr
    rw [chunksFrom_cons_none ht]
    have hws : jsWs c = true := by
      cases hcw : jsWs c with
      | true => rfl
      | false =>
        have := findT_isSome_of_head hr hcw
        rw [ht] at this
        exact Bool.noConfusion this
    exact Covers.gap hws (ih (runsOK_cons hr))

/-- Delivery-layer actions of `sendMessage` on a plain text. -/
inductive DAct
  | send (msg : List Char)
  | delay (ms : Nat)
  deriving DecidableEq

/-- The messages actually sent. -/
def sentOf (acts : List DAct) : List (List Char) :=
  acts.filterMap (fun a => match a with | .send m => some m | _ => none)

theorem sendTextActs_dec {s : List Char} (hlen : msgCap < s.length) (i : Nat) :
    (trimCL ((chunksOrWhole s).getD i [])).length < s.length := by
  have hpos : 0 < s.length := by
    unfold msgCap at hlen
    omega
  unfold chunksOrWhole
  split
  · next hemp =>
    -- no match anywhere: `chunks = [messageText]`; in that case every
    -- character is a line terminator and the trim is empty
    have hall := chunksFrom_eq_nil (List.isEmpty_iff.1 hemp)
    rcases Decidable.em (i = 0) with rfl | hne
    · rw [List.getD_cons_zero,
        trimCL_eq_nil_of_ws (fun c hc => jsWs_of_lineTerm (hall c hc))]
      simpa using hpos
    · have : ([s] : List (List Char)).getD i [] = [] := by
        rw [List.getD_eq_getElem?_getD, List.getElem?_eq_none (by simp; omega)]
        rfl
      rw [this]
      simpa [trimCL] using hpos
  · next hemp =>
    have hle : ((chunksFrom s).getD i []).length ≤ chunkCap + 1 := by
      rcases Decidable.em (i < (chunksFrom s).length) with hi2 | hi2
      · have hmem : (chunksFrom s).getD i [] ∈ chunksFrom s := by
          rw [List.getD_eq_getElem?_getD, List.getElem?_eq_getElem hi2]
          exact List.getElem_mem hi2
        exact (chunksFrom_mem hmem).2
      · rw [List.getD_eq_getElem?_getD, List.getElem?_eq_none (by omega)]
        simp [chunkCap]
    have htr := trimCL_length_le ((chunksFrom s).getD i [])
    unfold msgCap at hlen
    unfold chunkCap at hle
    omega

/-- The `sendMessage` long-text path: split, then send at most three chunks
(each through a recursive `sendMessage` call on the trimmed chunk), with a
1000 ms delay after every chunk except the last of the *whole* chunk list.
Texts at or below the threshold are sent as one message. -/
def sendTextActs (s : List Char) : List DAct :=
  if h : msgCap < s.length then
    (List.range (min (chunksOrWhole s).length 3)).attach.flatMap (fun i =>
      sendTextActs (trimCL ((chunksOrWhole s).getD i.1 [])) ++
        (if i.1 < (chunksOrWhole s).length - 1 then [DAct.delay 1000] else []))
  else [DAct.send s]
termination_by s.length
decreasing_by
  exact sendTextActs_dec h i.1

/-! ## Shared helper lemmas -/

/-- The `reduce((a, b) => scores[a] > scores[b] ? a : b)` champion attains
the maximum score, and every language declared *after* it scores strictly
less: on ties the champion is the **last**-declared tied language. -/
theorem detectCore_lastmax (score : Lang → Nat) (h : ∃ l, 0 < score l) :
    (∀ l, score l ≤ score (detectCore score)) ∧
    (∀ l, langIdx (detectCore score) < langIdx l →
      score l < score (detectCore score)) := by
  obtain ⟨l0, hl0⟩ := h
  simp only [detectCore, pickLang]
  split_ifs <;>
    exact ⟨fun l => by cases l <;> cases l0 <;> simp_all [langIdx] <;> omega,
      fun l hidx => by cases l <;> cases l0 <;> simp_all [langIdx] <;> omega⟩

/-- All-zero scores make `detect` return the fixed default `english`. -/
theorem detectCore_all_zero (score : Lang → Nat) (h : ∀ l, score l = 0) :
    detectCore score = Lang.english := by
  simp only [detectCore, pickLang]
  simp [h]

/-! ## Claim C4 — classifier default on all-zero scores -/

/-- C4 (counterexample): the claim says `detect` takes an optional prior
preference and returns it on an all-zero tie.  The code's `detect` is a
function of the text alone: on the whitespace-only text `" "` it returns
the fixed default `english`, whereas the spec-modelled
`detectSpec " " (some arabic)` returns the supplied prior `arabic`. -/
theorem C4_counterexample :
    detect_srv " " = Lang.english ∧
    detect_p2 " " = Lang.english ∧
    detectSpec " " (some Lang.arabic) = Lang.arabic ∧
    Lang.arabic ≠ Lang.english := by
  refine ⟨by decide, by decide, by decide, by decide⟩

/-- C4 (amended): `detect` has no prior-preference parameter; whenever all
language scores are zero — in particular for empty or whitespace-only
text — it returns the fixed default `english` (in `part_002` via the
explicit early return on blank text). -/
theorem C4_default_language_amended :
    (∀ t : String, (∀ l, srvScore t l = 0) → detect_srv t = Lang.english) ∧
    (∀ t : String, (∀ l, p0Score t l = 0) → detect_p0 t = Lang.english) ∧
    (∀ t : String, jsTrim t = "" → detect_p2 t = Lang.english) ∧
    detect_srv "" = Lang.english ∧ detect_srv " " = Lang.english ∧
    detect_p0 "" = Lang.english ∧ detect_p0 " " = Lang.english := by
  refine ⟨?_, ?_, ?_, by decide, by decide, by decide, by decide⟩
  · intro t h
    exact detectCore_all_zero _ h
  · intro t h
    exact detectCore_all_zero _ h
  · intro t ht
    unfold detect_p2
    rw [ht]
    simp

/-- C4 (witness). -/
theorem C4_witness :
    (srvScore "" Lang.arabic = 0 ∧ srvScore "" Lang.darija = 0 ∧
     srvScore "" Lang.french = 0 ∧ srvScore "" Lang.english = 0) ∧
    detect_srv "" = Lang.english :=
  ⟨by decide, C4_default_language_amended.1 "" (fun l => by cases l <;> decide)⟩

/-! ## Claim C5 — tie-breaking among nonzero scores -/

/-- C5 (counterexample): on `"bonjour hello hi thanks"` french and english
tie at the nonzero score 6 (in both `server.js` and `part_000` tables),
french is declared before english, yet `detect` returns english — the
**last**-declared tied language, not the first-declared one the claim
states. -/
theorem C5_counterexample :
    srvScore "bonjour hello hi thanks" Lang.french =
      srvScore "bonjour hello hi thanks" Lang.english ∧
    0 < srvScore "bonjour hello hi thanks" Lang.french ∧
    langIdx Lang.french < langIdx Lang.english ∧
    detect_srv "bonjour hello hi thanks" = Lang.english ∧
    p0Score "bonjour hello hi thanks" Lang.french =
      p0Score "bonjour hello hi thanks" Lang.english ∧
    0 < p0Score "bonjour hello hi thanks" Lang.french ∧
    detect_p0 "bonjour hello hi thanks" = Lang.english := by
  refine ⟨by decide, by decide, by decide, by decide, by decide, by decide, by decide⟩

/-- C5 (amended): whenever some score is nonzero, `detect` returns a
language attaining the maximum score, and every language declared *later*
than the result scores strictly less — i.e. ties among nonzero scores
resolve to the **last**-declared tied language in the pattern table's
iteration order (english last), not the first-declared one. -/
theorem C5_tie_break_amended :
    (∀ t : String, (∃ l, 0 < srvScore t l) →
      (∀ l, srvScore t l ≤ srvScore t (detect_srv t)) ∧
      (∀ l, langIdx (detect_srv t) < langIdx l →
        srvScore t l < srvScore t (detect_srv t))) ∧
    (∀ t : String, (∃ l, 0 < p0Score t l) →
      (∀ l, p0Score t l ≤ p0Score t (detect_p0 t)) ∧
      (∀ l, langIdx (detect_p0 t) < langIdx l →
        p0Score t l < p0Score t (detect_p0 t))) := by
  exact ⟨fun t h => detectCore_lastmax (srvScore t) h,
         fun t h => detectCore_lastmax (p0Score t) h⟩

/-- C5 (witness). -/
theorem C5_witness :
    0 < srvScore "bonjour" Lang.french ∧
    srvScore "bonjour" Lang.english ≤ srvScore "bonjour" (detect_srv "bonjour") :=
  ⟨by decide,
   (C5_tie_break_amended.1 "bonjour" ⟨Lang.french, by decide⟩).1 Lang.english⟩

/-! ## Claim C3 — janitor eviction -/

theorem alGet_alDel_self {β : Type} (k : String) (l : List (String × β)) :
    alGet k (alDel k l) = none := by
  induction l with
  | nil => rfl
  | cons p rest ih =>
    unfold alDel
    rw [List.filter_cons]
    by_cases hk : p.1 = k
    · rw [if_neg (by simp [hk])]
      exact ih
    · rw [if_pos (by simp [hk])]
      unfold alGet
      rw [if_neg hk]
      exact ih

theorem alGet_alDel_none {β : Type} {k k' : String} {l : List (String × β)}
    (h : alGet k l = none) : alGet k (alDel k' l) = none := by
  induction l with
  | nil => rfl
  | cons p rest ih =>
    unfold alGet at h
    split at h
    · exact absurd h (by simp)
    · next hne =>
      unfold alDel
      rw [List.filter_cons]
      by_cases hk : p.1 = k'
      · rw [if_neg (by simp [hk])]
        exact ih h
      · rw [if_pos (by simp [hk])]
        unfold alGet
        rw [if_neg hne]
        exact ih h

theorem sweepFold_none {π : Type} (lastOf : π → Option Nat) (cutoff : Nat)
    (ps : List (String × π)) :
    ∀ cs : List (String × List Turn), ∀ uid : String, alGet uid cs = none →
      alGet uid (ps.foldl (fun cs kp =>
        match lastOf kp.2 with
        | some ts => if ts < cutoff then alDel kp.1 cs else cs
        | none => cs) cs) = none := by
  induction ps with
  | nil => intro cs uid h; exact h
  | cons kp rest ih =>
    intro cs uid h
    rw [List.foldl_cons]
    apply ih
    rcases lastOf kp.2 with _ | ts
    · simpa using h
    · simp only
      split
      · exact alGet_alDel_none h
      · exact h

/-- C3 (counterexample): a profile 8 days stale against the 24-hour cutoff.
After the sweep the Conversation entry is gone, but the Profile entry is
still present in `userProfiles` — the claim says both are removed. -/
theorem C3_counterexample :
    (cronSweep_srv (janitorCutoff (8 * 24 * 60 * 60 * 1000))
        [("u1", ⟨"Friend", "", "en_US", 0, 1, some 0⟩)]
        [("u1", [⟨Role.user, "hi"⟩])]).1 =
      [("u1", (⟨"Friend", "", "en_US", 0, 1, some 0⟩ : ProfSrv))] ∧
    alGet "u1" (cronSweep_srv (janitorCutoff (8 * 24 * 60 * 60 * 1000))
        [("u1", ⟨"Friend", "", "en_US", 0, 1, some 0⟩)]
        [("u1", [⟨Role.user, "hi"⟩])]).2 = none ∧
    (alGet "u1" (cronSweep_srv (janitorCutoff (8 * 24 * 60 * 60 * 1000))
        [("u1", ⟨"Friend", "", "en_US", 0, 1, some 0⟩)]
        [("u1", [⟨Role.user, "hi"⟩])]).1).isSome = true ∧
    (0 : Nat) < janitorCutoff (8 * 24 * 60 * 60 * 1000) := by
  refine ⟨rfl, by decide, by decide, by decide⟩

/-- C3 (amended): after a sweep, every sender whose profile's
`lastMessageTime` precedes the cutoff has its **Conversation** entry
removed; the **Profile** entry is never removed (`userProfiles` is returned
unchanged by the sweep in both `server.js` and `part_000`). -/
theorem C3_janitor_amended :
    (∀ (cutoff : Nat) (profiles : List (String × ProfSrv))
       (convs : List (String × List Turn)) (uid : String) (p : ProfSrv) (ts : Nat),
      alGet uid profiles = some p → p.lastMessageTime = some ts → ts < cutoff →
      alGet uid (cronSweep_srv cutoff profiles convs).2 = none ∧
      (cronSweep_srv cutoff profiles convs).1 = profiles) ∧
    (∀ (cutoff : Nat) (profiles : List (String × ProfP0))
       (convs : List (String × List Turn)) (uid : String) (p : ProfP0) (ts : Nat),
      alGet uid profiles = some p → p.lastMessageTime = some ts → ts < cutoff →
      alGet uid (cronSweep_p0 cutoff profiles convs).2 = none ∧
      (cronSweep_p0 cutoff profiles convs).1 = profiles) := by
  have key : ∀ (π : Type) (lastOf : π → Option Nat) (cutoff : Nat)
      (profiles : List (String × π)) (convs : List (String × List Turn))
      (uid : String) (p : π) (ts : Nat),
      alGet uid profiles = some p → lastOf p = some ts → ts < cutoff →
      alGet uid (cronSweep lastOf cutoff profiles convs).2 = none := by
    intro π lastOf cutoff profiles
    induction profiles with
    | nil =>
      intro convs uid p ts hget
      exact absurd hget (by simp [alGet])
    | cons kp rest ih =>
      intro convs uid p ts hget hlast hts
      unfold cronSweep
      rw [List.foldl_cons]
      unfold alGet at hget
      split at hget
      · next heq =>
        cases hget
        rw [hlast]
        simp only
        rw [if_pos hts]
        apply sweepFold_none
        rw [← heq]
        exact alGet_alDel_self kp.1 convs
      · -- key differs: the deletion happens when the fold reaches the
        -- matching entry inside `rest`
        have := ih (match lastOf kp.2 with
          | some ts' => if ts' < cutoff then alDel kp.1 convs else convs
          | none => convs) uid p ts hget hlast hts
        unfold cronSweep at this
        exact this
  refine ⟨fun cutoff profiles convs uid p ts h1 h2 h3 => ⟨?_, rfl⟩,
          fun cutoff profiles convs uid p ts h1 h2 h3 => ⟨?_, rfl⟩⟩
  · exact key ProfSrv ProfSrv.lastMessageTime cutoff profiles convs uid p ts h1 h2 h3
  · exact key ProfP0 ProfP0.lastMessageTime cutoff profiles convs uid p ts h1 h2 h3

/-- C3 (witness). -/
theorem C3_witness :
    alGet "u9" (cronSweep_srv 100 [("u9", ⟨"A", "", "en_US", 0, 1, some 5⟩)]
      [("u9", [⟨Role.user, "q"⟩])]).2 = none :=
  (C3_janitor_amended.1 100 [("u9", ⟨"A", "", "en_US", 0, 1, some 5⟩)]
    [("u9", [⟨Role.user, "q"⟩])] "u9" ⟨"A", "", "en_US", 0, 1, some 5⟩ 5
    (by decide) rfl (by decide)).1

/-! ## Claim C10 — the page's own echoed messages are skipped -/

/-- C10: in the `server.js`, `part_000` and `part_002` webhook handlers, a
messaging event whose sender id equals the entry's page id spawns no task —
so no `processMessage` run, hence no profile or conversation mutation, no
typing indicator, and no outbound send happen for it — and consequently no
spawned task of any entry ever carries the page's own id as sender. -/
theorem C10_page_echo_skipped :
    (∀ (pageId : String) (ev : WebhookEvent), ev.senderId = pageId →
      eventTask_srv pageId ev = none ∧ eventTask_p0p2 pageId ev = none) ∧
    (∀ (e : WebhookEntry) (t : Task),
      t ∈ entryTasks eventTask_srv e → t.senderOf ≠ e.id) ∧
    (∀ (e : WebhookEntry) (t : Task),
      t ∈ entryTasks eventTask_p0p2 e → t.senderOf ≠ e.id) := by
  have hsrv : ∀ (pid : String) (ev : WebhookEvent) (t : Task),
      eventTask_srv pid ev = some t → t.senderOf ≠ pid := by
    intro pid ev t h
    unfold eventTask_srv at h
    split at h
    · exact absurd h (by simp)
    · next hne =>
      split at h
      · split at h
        · cases h
          exact hne
        · exact absurd h (by simp)
      · split at h
        · next title payload heq =>
          cases h
          exact hne
        · exact absurd h (by simp)
  have hp0 : ∀ (pid : String) (ev : WebhookEvent) (t : Task),
      eventTask_p0p2 pid ev = some t → t.senderOf ≠ pid := by
    intro pid ev t h
    unfold eventTask_p0p2 at h
    split at h
    · exact absurd h (by simp)
    · next hne =>
      split at h
      · cases h
        exact hne
      · split at h
        · next title payload heq =>
          cases h
          exact hne
        · exact absurd h (by simp)
  refine ⟨?_, ?_, ?_⟩
  · intro pid ev h
    constructor
    · unfold eventTask_srv
      rw [if_pos h]
    · unfold eventTask_p0p2
      rw [if_pos h]
  · intro e t ht
    rcases List.mem_filterMap.1 ht with ⟨ev, _, hsome⟩
    exact hsrv e.id ev t hsome
  · intro e t ht
    rcases List.mem_filterMap.1 ht with ⟨ev, _, hsome⟩
    exact hp0 e.id ev t hsome

/-- C10 (witness): a concrete echoed event (sender = page id) is skipped. -/
theorem C10_witness :
    eventTask_srv "page7"
      ⟨"page7", some ⟨some "hello", some [AttachType.image]⟩, none⟩ = none ∧
    eventTask_p0p2 "page7"
      ⟨"page7", some ⟨some "hello", some [AttachType.image]⟩, none⟩ = none :=
  (C10_page_echo_skipped.1 "page7"
    ⟨"page7", some ⟨some "hello", some [AttachType.image]⟩, none⟩ rfl)

/-! ## Claim C7 — AI responder failover -/

/-- C7 (counterexample): the claim says the retry uses "tighter token
limits".  In `server.js` the retry request against the fast model carries
the *same* `max_tokens: 4000` (and the same temperature/top-p/timeout) as
the primary request against the advanced model — the two attempt
configurations differ only in the model name. -/
theorem C7_counterexample :
    (srvGroqCfg srvFastModel).maxTokens = (srvGroqCfg srvAdvancedModel).maxTokens ∧
    ¬ (srvGroqCfg srvFastModel).maxTokens < (srvGroqCfg srvAdvancedModel).maxTokens ∧
    (srvGroqCfg srvFastModel).timeoutMs = (srvGroqCfg srvAdvancedModel).timeoutMs ∧
    srvGroqAttempts none true =
      [srvGroqCfg srvAdvancedModel, srvGroqCfg srvFastModel] := by
  refine ⟨rfl, by decide, rfl, rfl⟩

/-- C7 (amended): neither `callGroqAPI` ever propagates a failure: every
outcome is a trimmed model reply or the static language-keyed apology.  In
`server.js`, a failed advanced-model request is retried exactly once
against the smaller fast model — but with the same token limit — and a run
that starts on the fast model (`useAdvancedModel` false) is not retried at
all.  In `part_000`, a failed primary request is retried exactly once
against the fallback model with genuinely tighter limits
(`max_tokens` 180 < 200/250, timeout 20 s < 30 s); a second failure yields
the static apology localized by the responder's internal Arabic/English
detection. -/
theorem C7_failover_amended :
    (∀ advO fastO lang b,
      callGroqAPI_srv advO fastO lang b = srvApology lang ∨
      (∃ r, (advO = some r ∨ fastO = some r) ∧
        callGroqAPI_srv advO fastO lang b = jsTrim r)) ∧
    (∀ lang, callGroqAPI_srv none none lang true = srvApology lang) ∧
    (∀ lang r, callGroqAPI_srv none (some r) lang true = jsTrim r) ∧
    (∀ r, srvGroqAttempts (some r) true = [srvGroqCfg srvAdvancedModel]) ∧
    srvGroqAttempts none true =
      [srvGroqCfg srvAdvancedModel, srvGroqCfg srvFastModel] ∧
    (∀ advO, srvGroqAttempts advO false = [srvGroqCfg srvFastModel]) ∧
    (∀ primO fbO msgs,
      callGroqAPI_p0 primO fbO msgs = p0Apology (groqIsArabic_p0 msgs) ∨
      (∃ r, (primO = some r ∨ fbO = some r) ∧
        callGroqAPI_p0 primO fbO msgs = jsTrim r)) ∧
    (∀ msgs, callGroqAPI_p0 none none msgs = p0Apology (groqIsArabic_p0 msgs)) ∧
    (∀ msgs r, callGroqAPI_p0 none (some r) msgs = jsTrim r) ∧
    (∀ msgs, p0GroqAttempts none msgs =
      [p0PrimaryCfg (groqIsArabic_p0 msgs), p0FallbackCfg]) ∧
    (∀ msgs r, p0GroqAttempts (some r) msgs =
      [p0PrimaryCfg (groqIsArabic_p0 msgs)]) ∧
    p0FallbackCfg.maxTokens < (p0PrimaryCfg true).maxTokens ∧
    p0FallbackCfg.maxTokens < (p0PrimaryCfg false).maxTokens ∧
    p0FallbackCfg.timeoutMs < (p0PrimaryCfg true).timeoutMs ∧
    p0FallbackCfg.timeoutMs < (p0PrimaryCfg false).timeoutMs := by
  have hne : ∀ b : Bool,
      ((if b then p0ArabicModel else p0EnglishModel) ≠ p0FallbackModel) = True := by
    intro b
    cases b <;> simp <;> decide
  refine ⟨?_, fun lang => rfl, fun lang r => rfl, fun r => rfl, rfl, ?_, ?_, ?_, ?_,
    ?_, ?_, by decide, by decide, by decide, by decide⟩
  · intro advO fastO lang b
    cases b
    · cases fastO with
      | none => exact Or.inl rfl
      | some r => exact Or.inr ⟨r, Or.inr rfl, rfl⟩
    · cases advO with
      | none =>
        cases fastO with
        | none => exact Or.inl rfl
        | some r => exact Or.inr ⟨r, Or.inr rfl, rfl⟩
      | some r => exact Or.inr ⟨r, Or.inl rfl, rfl⟩
  · intro advO
    rfl
  · intro primO fbO msgs
    unfold callGroqAPI_p0
    cases primO with
    | some r => exact Or.inr ⟨r, Or.inl rfl, rfl⟩
    | none =>
      cases fbO with
      | some r =>
        refine Or.inr ⟨r, Or.inr rfl, ?_⟩
        simp only
        rw [if_pos ?_]
        · cases hA : groqIsArabic_p0 msgs <;> simp [hA] <;> decide
      | none =>
        refine Or.inl ?_
        simp only
        rw [if_pos ?_]
        · cases hA : groqIsArabic_p0 msgs <;> simp [hA] <;> decide
  · intro msgs
    unfold callGroqAPI_p0
    simp only
    rw [if_pos ?_]
    · cases hA : groqIsArabic_p0 msgs <;> simp [hA] <;> decide
  · intro msgs r
    unfold callGroqAPI_p0
    simp only
    rw [if_pos ?_]
    · cases hA : groqIsArabic_p0 msgs <;> simp [hA] <;> decide
  · intro msgs
    unfold p0GroqAttempts
    simp only
    rw [if_pos ?_]
    · cases hA : groqIsArabic_p0 msgs <;> simp [hA] <;> decide
  · intro msgs r
    rfl

/-! ## Claim C2 — conversation cap -/

theorem alGet_alSet_self {β : Type} (k : String) (v : β) (l : List (String × β)) :
    alGet k (alSet k v l) = some v := by
  induction l with
  | nil =>
    unfold alSet alGet
    simp
  | cons p rest ih =>
    rcases p with ⟨k', v'⟩
    unfold alSet
    by_cases hk : k' = k
    · rw [if_pos hk]
      unfold alGet
      simp
    · rw [if_neg hk]
      unfold alGet
      rw [if_neg hk]
      exact ih

theorem alGet_alSet_other {β : Type} {k u : String} (v : β)
    (l : List (String × β)) (hne : u ≠ k) :
    alGet u (alSet k v l) = alGet u l := by
  induction l with
  | nil =>
    unfold alSet alGet
    rw [if_neg (fun h => hne h.symm)]
    rfl
  | cons p rest ih =>
    rcases p with ⟨k', v'⟩
    unfold alSet
    by_cases hk : k' = k
    · rw [if_pos hk]
      unfold alGet
      rw [if_neg (fun h => hne h.symm), if_neg (by rw [hk]; exact fun h => hne h.symm)]
    · rw [if_neg hk]
      unfold alGet
      by_cases hku : k' = u
      · rw [if_pos hku, if_pos hku]
      · rw [if_neg hku, if_neg hku]
        exact ih

/-- The run of `server.js` `processMessage` used by the C2 counterexample:
the same sender keeps sending the plain text `"zz"` and the Groq oracle
always answers `"ok"`. -/
def c2Step (st : StSrv) : StSrv :=
  (processMessage_srv 0 ⟨none, none, none, some "ok", some "ok"⟩ "u1" "zz" [] st).1

/-- `n` consecutive such messages starting from the empty state. -/
def c2StateN : Nat → StSrv
  | 0 => ⟨[], []⟩
  | n + 1 => c2Step (c2StateN n)

/-- C2 (counterexample): `server.js` trims to 20 only *before* the
assistant turn is pushed, so after the 11th exchange the stored
conversation of the sender holds 21 turns — more than the claimed cap. -/
theorem C2_counterexample :
    (alGet "u1" (c2StateN 11).convs).isSome = true ∧
    ((alGet "u1" (c2StateN 11).convs).getD []).length = 21 := by
  refine ⟨by decide, by decide⟩

/-- Turns of the 25-append scenario (distinguished by timestamp). -/
def c2Turns : List TurnP1 :=
  (List.range 25).map (fun i => ⟨"user", "m", i⟩)

/-- C2 (amended): the `part_001` conversation store (`addToConversation`,
cap `MAX_CONVERSATION_LENGTH = 20`) keeps every stored conversation at
length ≤ 20 after every append, and appending 25 turns to an empty
conversation leaves exactly the 20 most recent turns in original order.
The inline append flow of `server.js` can instead leave 21 stored turns
(see the counterexample). -/
theorem C2_conversation_cap_amended :
    (∀ (conv : List TurnP1) (t : TurnP1), conv.length ≤ maxConvLen_p1 →
      (addTurn_p1 conv t).length ≤ maxConvLen_p1) ∧
    (∀ (convs : List (String × List TurnP1)) (uid role msg : String) (ts : Nat),
      (∀ u c, alGet u convs = some c → c.length ≤ maxConvLen_p1) →
      ∀ u c, alGet u (addToConversation_p1 convs uid role msg ts) = some c →
        c.length ≤ maxConvLen_p1) ∧
    List.foldl addTurn_p1 [] c2Turns = c2Turns.drop 5 ∧
    (List.foldl addTurn_p1 [] c2Turns).length = 20 := by
  have hstep : ∀ (conv : List TurnP1) (t : TurnP1),
      conv.length ≤ maxConvLen_p1 →
      (addTurn_p1 conv t).length ≤ maxConvLen_p1 := by
    intro conv t h
    simp only [addTurn_p1, maxConvLen_p1] at *
    split
    · next hgt =>
      simp only [List.length_tail, List.length_append, List.length_cons,
        List.length_nil] at *
      omega
    · next hle =>
      simp only [List.length_append, List.length_cons, List.length_nil] at *
      omega
  refine ⟨hstep, ?_, by decide, by decide⟩
  intro convs uid role msg ts hinv u c hget
  unfold addToConversation_p1 at hget
  by_cases hu : u = uid
  · subst hu
    rw [alGet_alSet_self] at hget
    cases hget
    rcases hold : alGet u convs with _ | c0
    · exact hstep [] _ (by simp [maxConvLen_p1])
    · exact hstep c0 _ (hinv u c0 hold)
  · rw [alGet_alSet_other _ _ hu] at hget
    exact hinv u c hget

/-- C2 (witness). -/
theorem C2_witness :
    (([] : List TurnP1).length ≤ maxConvLen_p1) ∧
    (addTurn_p1 [] ⟨"user", "m", 0⟩).length ≤ maxConvLen_p1 :=
  ⟨by decide, C2_conversation_cap_amended.1 [] ⟨"user", "m", 0⟩ (by decide)⟩

/-! ## Claim C9 — creator questions answered before any AI call -/

/-- C9: in `server.js`, any text matching a creator pattern yields exactly
the creator canned reply (worded in the detected language) with no AI call
and no conversation write — whatever the attachments; in `part_000`, the
same holds for any non-blank text message without attachments.  The
matching itself is language-independent; the detected language only selects
the reply's wording. -/
theorem C9_creator_priority :
    (∀ now orac sid text atts st, isAskingAboutCreator_srv text = true →
      sendsOf (processMessage_srv now orac sid text atts st).2 =
        [Reply.creator (detect_srv text)] ∧
      Act.callAI ∉ (processMessage_srv now orac sid text atts st).2 ∧
      (processMessage_srv now orac sid text atts st).1.convs = st.convs) ∧
    (∀ now orac sid text st, jsTrim text ≠ "" →
      isAskingAboutCreator_p0 text = true →
      sendsOf (processMessage_p0 now orac sid text [] st).2 =
        [Reply.creator (detect_p0 text)] ∧
      Act.callAI ∉ (processMessage_p0 now orac sid text [] st).2 ∧
      (processMessage_p0 now orac sid text [] st).1.convs = st.convs) := by
  constructor
  · intro now orac sid text atts st h
    unfold processMessage_srv
    cases hget : alGet sid st.profiles <;>
      simp [h, sendsOf, hget]
  · intro now orac sid text st hb h
    have htext : ¬ text = "" := by
      intro he
      exact hb (by rw [he]; rfl)
    unfold processMessage_p0
    cases hget : alGet sid st.profiles <;>
      simp [h, hb, htext, sendsOf, hget]

/-- C9 (witness): the scenario input `"من صنعك"`. -/
theorem C9_witness :
    sendsOf (processMessage_p0 5 ⟨none, none, none, some "ok", some "ok"⟩
        "u1" "من صنعك" [] ⟨[], []⟩).2 =
      [Reply.creator (detect_p0 "من صنعك")] ∧
    Act.callAI ∉ (processMessage_p0 5 ⟨none, none, none, some "ok", some "ok"⟩
        "u1" "من صنعك" [] ⟨[], []⟩).2 := by
  have h := C9_creator_priority.2 5 ⟨none, none, none, some "ok", some "ok"⟩
    "u1" "من صنعك" ⟨[], []⟩ (by decide) (by decide)
  exact ⟨h.1, h.2.1⟩

/-! ## Claim C6 — one-time welcome -/

/-- State after a first contact that is an image-only message
(`part_002`): the profile is created un-welcomed and the media notice is
sent before the welcome check is ever reached. -/
def c6St1 : StP2 :=
  (processMessage_p2 0 ⟨some "Sam", none, none, some "ok", some "ok"⟩
    "u1" "" [AttachType.image] ⟨[], []⟩).1

/-- The same sender's next message, a first non-empty text. -/
def c6Run2 : StP2 × List Act :=
  processMessage_p2 1 ⟨some "Sam", none, none, some "ok", some "ok"⟩
    "u1" "hello" [] c6St1

/-- C6 (counterexample): after an image-only first contact the sender's
profile exists with `isWelcomed = false`; the claim says the first
non-empty text then yields the Greeting and flips the flag, but the code
never welcomes a sender whose profile already exists: the second message
goes straight to the AI reply and the flag stays `false`. -/
theorem C6_counterexample :
    ((alGet "u1" c6St1.profiles).map ProfP2.isWelcomed) = some false ∧
    sendsOf c6Run2.2 = [Reply.ai "ok"] ∧
    ((alGet "u1" c6Run2.1.profiles).map ProfP2.isWelcomed) = some false := by
  refine ⟨by decide, by decide, by decide⟩

/-- C6 (amended): the Greeting fires only when the profile is created by
the same call: a brand-new sender whose first event is a non-empty text
message with no attachments gets the welcome reply and the stored profile
has `isWelcomed = true`; any sender whose profile already exists — whatever
the value of its `isWelcomed` flag — never receives the welcome reply
again (in particular a sender first seen through a media or blank event
never receives it at all). -/
theorem C6_welcome_amended :
    (∀ now orac sid text st, alGet sid st.profiles = none → jsTrim text ≠ "" →
      sendsOf (processMessage_p2 now orac sid text [] st).2 =
        [Reply.welcome (orac.fbFirst.getD "Friend") (detect_p2 text)] ∧
      ((alGet sid (processMessage_p2 now orac sid text [] st).1.profiles).map
        ProfP2.isWelcomed) = some true) ∧
    (∀ now orac sid text atts st p, alGet sid st.profiles = some p →
      ∀ r ∈ sendsOf (processMessage_p2 now orac sid text atts st).2,
        ∀ n lg, r ≠ Reply.welcome n lg) := by
  constructor
  · intro now orac sid text st hget hb
    have htext : ¬ text = "" := by
      intro he
      exact hb (by rw [he]; rfl)
    unfold processMessage_p2
    simp [hget, hb, htext, sendsOf, alGet_alSet_self]
  · intro now orac sid text atts st p hget r hr n lg
    unfold processMessage_p2 at hr
    simp only [hget, Option.isNone_some, Bool.false_and, if_false,
      Bool.false_eq_true] at hr
    split_ifs at hr <;> simp [sendsOf] at hr <;> simp [hr]

/-- C6 (witness). -/
theorem C6_witness :
    sendsOf (processMessage_p2 0 ⟨some "Sam", none, none, some "ok", some "ok"⟩
        "u1" "hello" [] ⟨[], []⟩).2 =
      [Reply.welcome "Sam" (detect_p2 "hello")] :=
  (C6_welcome_amended.1 0 ⟨some "Sam", none, none, some "ok", some "ok"⟩
    "u1" "hello" ⟨[], []⟩ rfl (by decide)).1

/-! ## Claim C1 — intent-router priority order -/

/-- C1 (counterexample): in the `server.js` router the creator-identity
check runs *before* the attachment check: an event carrying an image
attachment together with creator-question text is answered with the
creator reply, not the media notice; and a whitespace-only text is not a
no-op — it reaches the AI call. -/
theorem C1_counterexample :
    sendsOf (processMessage_srv 0 ⟨none, none, none, some "ok", some "ok"⟩
        "u1" "who created you" [AttachType.image] ⟨[], []⟩).2 =
      [Reply.creator Lang.english] ∧
    (∀ mk lg, Reply.creator Lang.english ≠ Reply.media mk lg) ∧
    Reply.creator Lang.english ≠ Reply.imageAnalysis Lang.english ∧
    Act.callAI ∈ (processMessage_srv 0 ⟨none, none, none, some "ok", some "ok"⟩
        "u2" " " [] ⟨[], []⟩).2 := by
  refine ⟨by decide, fun mk lg => by simp, by decide, by decide⟩

/-- C1 (amended): the strict priority order
media → blank-text no-op → (first-time welcome) → creator → profile-link →
AI holds for the `part_000` and `part_002` routers — except that the
"no-op" on blank text still creates/updates the sender's profile (it only
skips the reply, the AI call and the conversation write).  In the
`server.js` router the creator check precedes the media check, only image
attachments receive a canned media reply (other attachment types fall
through to the AI call), and blank text is not special-cased. -/
theorem C1_router_priority_amended :
    (∀ now orac sid text atts st, atts ≠ [] →
      sendsOf (processMessage_p2 now orac sid text atts st).2 =
        [Reply.media (mediaKindOf atts) (detect_p2 text)] ∧
      Act.callAI ∉ (processMessage_p2 now orac sid text atts st).2 ∧
      (processMessage_p2 now orac sid text atts st).1.convs = st.convs) ∧
    (∀ now orac sid text st, jsTrim text = "" →
      sendsOf (processMessage_p2 now orac sid text [] st).2 = [] ∧
      Act.callAI ∉ (processMessage_p2 now orac sid text [] st).2 ∧
      (processMessage_p2 now orac sid text [] st).1.convs = st.convs ∧
      (alGet sid (processMessage_p2 now orac sid text [] st).1.profiles).isSome
        = true) ∧
    (∀ now orac sid text st p, alGet sid st.profiles = some p →
      jsTrim text ≠ "" → isAskingAboutCreator_p2 text = true →
      sendsOf (processMessage_p2 now orac sid text [] st).2 =
        [Reply.creator (detect_p2 text)]) ∧
    (∀ now orac sid text st p, alGet sid st.profiles = some p →
      jsTrim text ≠ "" → isAskingAboutCreator_p2 text = false →
      isAskingAboutProfile_p2 text = true →
      sendsOf (processMessage_p2 now orac sid text [] st).2 =
        [Reply.profileLink (detect_p2 text)]) ∧
    (∀ now orac sid text st p, alGet sid st.profiles = some p →
      jsTrim text ≠ "" → isAskingAboutCreator_p2 text = false →
      isAskingAboutProfile_p2 text = false →
      Act.callAI ∈ (processMessage_p2 now orac sid text [] st).2) ∧
    (∀ now orac sid text atts st, atts ≠ [] →
      sendsOf (processMessage_p0 now orac sid text atts st).2 =
        [Reply.media (mediaKindOf atts) (detect_p0 text)] ∧
      Act.callAI ∉ (processMessage_p0 now orac sid text atts st).2 ∧
      (processMessage_p0 now orac sid text atts st).1.convs = st.convs) ∧
    (∀ now orac sid text st, jsTrim text = "" →
      sendsOf (processMessage_p0 now orac sid text [] st).2 = [] ∧
      Act.callAI ∉ (processMessage_p0 now orac sid text [] st).2 ∧
      (alGet sid (processMessage_p0 now orac sid text [] st).1.profiles).isSome
        = true) ∧
    (∀ now orac sid text st, jsTrim text ≠ "" →
      isAskingAboutCreator_p0 text = false →
      Act.callAI ∈ (processMessage_p0 now orac sid text [] st).2) ∧
    (∀ now orac sid text atts st, isAskingAboutCreator_srv text = true →
      sendsOf (processMessage_srv now orac sid text atts st).2 =
        [Reply.creator (detect_srv text)]) ∧
    (∀ now orac sid text atts st, isAskingAboutCreator_srv text = false →
      AttachType.image ∈ atts →
      sendsOf (processMessage_srv now orac sid text atts st).2 =
        [Reply.imageAnalysis (detect_srv text)]) ∧
    (∀ now orac sid text atts st, isAskingAboutCreator_srv text = false →
      AttachType.image ∉ atts →
      Act.callAI ∈ (processMessage_srv now orac sid text atts st).2) := by
  refine ⟨?_, ?_, ?_, ?_, ?_, ?_, ?_, ?_, ?_, ?_, ?_⟩
  · intro now orac sid text atts st h
    unfold processMessage_p2
    cases hget : alGet sid st.profiles <;> simp [h, sendsOf, hget]
  · intro now orac sid text st h
    unfold processMessage_p2
    cases hget : alGet sid st.profiles <;>
      simp [h, sendsOf, hget, alGet_alSet_self]
  · intro now orac sid text st p hget hb hc
    have htext : ¬ text = "" := fun he => hb (by rw [he]; rfl)
    unfold processMessage_p2
    simp [hget, hb, htext, hc, sendsOf]
  · intro now orac sid text st p hget hb hc hp
    have htext : ¬ text = "" := fun he => hb (by rw [he]; rfl)
    unfold processMessage_p2
    simp [hget, hb, htext, hc, hp, sendsOf]
  · intro now orac sid text st p hget hb hc hp
    have htext : ¬ text = "" := fun he => hb (by rw [he]; rfl)
    unfold processMessage_p2
    simp [hget, hb, htext, hc, hp, sendsOf]
  · intro now orac sid text atts st h
    unfold processMessage_p0
    cases hget : alGet sid st.profiles <;> simp [h, sendsOf, hget]
  · intro now orac sid text st h
    unfold processMessage_p0
    cases hget : alGet sid st.profiles <;>
      simp [h, sendsOf, hget, alGet_alSet_self]
  · intro now orac sid text st hb hc
    have htext : ¬ text = "" := fun he => hb (by rw [he]; rfl)
    unfold processMessage_p0
    cases hget : alGet sid st.profiles <;>
      simp [hb, htext, hc, sendsOf, hget]
  · intro now orac sid text atts st h
    unfold processMessage_srv
    cases hget : alGet sid st.profiles <;> simp [h, sendsOf, hget]
  · intro now orac sid text atts st hc himg
    have hany : atts.any (fun a => a = AttachType.image) = true := by
      rw [List.any_eq_true]
      exact ⟨AttachType.image, himg, by simp⟩
    unfold processMessage_srv
    cases hget : alGet sid st.profiles <;> simp [hc, hany, sendsOf, hget]
  · intro now orac sid text atts st hc himg
    have hany : atts.any (fun a => a = AttachType.image) = false := by
      rw [Bool.eq_false_iff]
      intro hcontra
      rcases List.any_eq_true.1 hcontra with ⟨a, ha, he⟩
      simp only [decide_eq_true_eq] at he
      exact himg (he ▸ ha)
    unfold processMessage_srv
    cases hget : alGet sid st.profiles <;> simp [hc, hany, sendsOf, hget]

/-- C1 (witness): a voice-message event in the `part_000` router yields the
media notice and no AI call. -/
theorem C1_witness :
    sendsOf (processMessage_p0 3 ⟨none, none, none, some "ok", some "ok"⟩
        "u1" "hello" [AttachType.audio] ⟨[], []⟩).2 =
      [Reply.media (mediaKindOf [AttachType.audio]) (detect_p0 "hello")] ∧
    Act.callAI ∉ (processMessage_p0 3 ⟨none, none, none, some "ok", some "ok"⟩
        "u1" "hello" [AttachType.audio] ⟨[], []⟩).2 := by
  have h := (C1_router_priority_amended.2.2.2.2.2.1) 3
    ⟨none, none, none, some "ok", some "ok"⟩ "u1" "hello" [AttachType.audio]
    ⟨[], []⟩ (by simp)
  exact ⟨h.1, h.2.1⟩

/-! ## C8: delivery chunking -/

/-- Trimming a list whose last character is white space loses at least that
character. -/
theorem trimCL_lt_of_last_ws {l : List Char} {cl : Char}
    (hl : l.getLast? = some cl) (hws : jsWs cl = true) :
    (trimCL l).length + 1 ≤ l.length := by
  have hlpos : 1 ≤ l.length := by
    cases l with
    | nil => simp at hl
    | cons a as => simp
  unfold trimCL
  rcases h1 : l.dropWhile jsWs with _ | ⟨d, ds⟩
  · simp
    omega
  · have hsub : ds.length + 1 ≤ l.length := by
      have hle := (List.dropWhile_sublist (l := l) jsWs).length_le
      rw [h1] at hle
      simpa using hle
    have hglast : (d :: ds).getLast? = some cl := by
      have hsplit : l.takeWhile jsWs ++ (d :: ds) = l := by
        rw [← h1]
        exact List.takeWhile_append_dropWhile _ _
      have hg := congrArg List.getLast? hsplit
      rw [List.getLast?_append, hl] at hg
      rcases h2 : (d :: ds).getLast? with _ | x
      · rw [List.getLast?_eq_none_iff] at h2
        exact List.noConfusion h2
      · rw [h2, Option.or_some] at hg
        exact hg
    rcases h3 : (d :: ds).reverse with _ | ⟨e, es⟩
    · have hl3 := congrArg List.length h3
      simp at hl3
    · have he : e = cl := by
        have hh := List.head?_reverse (d :: ds)
        rw [h3, hglast] at hh
        simpa using hh
      subst he
      rw [List.dropWhile_cons, if_pos hws]
      have hlen3 := congrArg List.length h3
      simp only [List.length_reverse, List.length_cons] at hlen3
      have hdw := (List.dropWhile_sublist (l := es) jsWs).length_le
      simp only [List.length_reverse]
      omega

/-- Every raw chunk trims to at most 1900 characters: a chunk either ends in
its matched white-space character (dropped by the trim) or is a final chunk
of at most 1900 characters. -/
theorem chunksFrom_trim_le {s raw : List Char} (h : raw ∈ chunksFrom s) :
    (trimCL raw).length ≤ chunkCap := by
  induction s using chunksFrom.induct with
  | case1 => simp [chunksFrom] at h
  | case2 c rest t ht ih =>
    rw [chunksFrom, ht] at h
    rcases List.mem_cons.1 h with rfl | h'
    · have h2 := findT_le_cap ht
      have h3 := findT_le_len ht
      by_cases hlt : t < (c :: rest).length
      · have hlt' : t < rest.length + 1 := by simpa using hlt
        have hk : consumedLen (c :: rest) t = t + 1 := if_pos hlt
        have hws : ∃ d, (c :: rest)[t]? = some d ∧ jsWs d = true := by
          have hv := findT_valid ht
          unfold chunkValid at hv
          simp only [Bool.and_eq_true, decide_eq_true_eq] at hv
          rcases Bool.or_eq_true_iff.1 hv.2 with he | hw
          · simp only [decide_eq_true_eq] at he
            simp only [List.length_cons] at he
            omega
          · rcases hm : (c :: rest)[t]? with _ | d
            · rw [hm] at hw
              simp at hw
            · rw [hm] at hw
              exact ⟨d, rfl, hw⟩
        rcases hws with ⟨d, hd, hdws⟩
        have hlast : ((c :: rest).take (consumedLen (c :: rest) t)).getLast? = some d := by
          rw [hk, List.getLast?_eq_getElem?, List.length_take]
          simp only [List.length_cons]
          have hmin : min (t + 1) (rest.length + 1) = t + 1 := by omega
          rw [hmin, Nat.add_sub_cancel, List.getElem?_take_of_lt (by omega)]
          exact hd
        have htr := trimCL_lt_of_last_ws hlast hdws
        rw [hk] at htr ⊢
        rw [List.length_take] at htr
        simp only [List.length_cons] at htr
        omega
      · have hk : consumedLen (c :: rest) t = t := if_neg hlt
        rw [hk]
        have htr := trimCL_length_le ((c :: rest).take t)
        rw [List.length_take] at htr
        omega
    · exact ih h'
  | case3 c rest ht ih =>
    rw [chunksFrom, ht] at h
    exact ih h

/-- `dropWhile` on a list none of whose elements satisfies the predicate. -/
theorem dropWhile_all_false {α : Type} {p : α → Bool} {l : List α}
    (h : ∀ c ∈ l, p c = false) : l.dropWhile p = l := by
  cases l with
  | nil => rfl
  | cons a as =>
    rw [List.dropWhile_cons, if_neg (by simp [h a (List.mem_cons_self a as)])]

/-- Trimming changes nothing when no character is white space. -/
theorem trimCL_no_ws {l : List Char} (h : ∀ c ∈ l, jsWs c = false) :
    trimCL l = l := by
  unfold trimCL
  rw [dropWhile_all_false h, dropWhile_all_false (fun c hc => h c (List.mem_reverse.1 hc)),
    List.reverse_reverse]

/-- Whatever chunk index is selected, the trimmed chunk fits in one message. -/
theorem trimChunk_le (s : List Char) (i : Nat) :
    (trimCL ((chunksOrWhole s).getD i [])).length ≤ chunkCap + 1 := by
  unfold chunksOrWhole
  split
  · next hemp =>
    have hall := chunksFrom_eq_nil (List.isEmpty_iff.1 hemp)
    rcases Decidable.em (i = 0) with rfl | hne
    · rw [List.getD_cons_zero,
        trimCL_eq_nil_of_ws (fun c hc => jsWs_of_lineTerm (hall c hc))]
      simp
    · have hget : ([s] : List (List Char)).getD i [] = [] := by
        rw [List.getD_eq_getElem?_getD, List.getElem?_eq_none (by simp; omega)]
        rfl
      rw [hget]
      simp [trimCL]
  · next hemp =>
    rcases Decidable.em (i < (chunksFrom s).length) with hi2 | hi2
    · have hmem : (chunksFrom s).getD i [] ∈ chunksFrom s := by
        rw [List.getD_eq_getElem?_getD, List.getElem?_eq_getElem hi2]
        exact List.getElem_mem hi2
      have := chunksFrom_trim_le hmem
      omega
    · rw [List.getD_eq_getElem?_getD, List.getElem?_eq_none (by omega)]
      simp [trimCL]

/-- Texts within the threshold are sent as a single message. -/
theorem sendTextActs_small {s : List Char} (h : s.length ≤ msgCap) :
    sendTextActs s = [DAct.send s] := by
  rw [sendTextActs, dif_neg (by omega)]

/-- Over the threshold, each of the at most three selected chunks is sent as
exactly one message (a trimmed chunk always fits in one message), with a
1000 ms delay after every chunk except the last of the whole chunk list. -/
theorem sendTextActs_long {s : List Char} (h : msgCap < s.length) :
    sendTextActs s = (List.range (min (chunksOrWhole s).length 3)).flatMap (fun i =>
      DAct.send (trimCL ((chunksOrWhole s).getD i [])) ::
        (if i < (chunksOrWhole s).length - 1 then [DAct.delay 1000] else [])) := by
  rw [sendTextActs, dif_pos h, List.flatMap_def, List.flatMap_def]
  congr 1
  conv_rhs => rw [← List.attach_map_subtype_val (List.range (min (chunksOrWhole s).length 3))]
  rw [List.map_map]
  apply List.map_congr_left
  intro a _
  simp only [Function.comp_apply]
  rw [sendTextActs_small
    (le_trans (trimChunk_le s a.1) (by unfold chunkCap msgCap; omega))]
  rfl

/-- `sentOf` of the chunk loop: one sent message per selected index. -/
theorem sentOf_chunkLoop (s : List Char) : ∀ k : Nat,
    sentOf ((List.range k).flatMap (fun i =>
      DAct.send (trimCL ((chunksOrWhole s).getD i [])) ::
        (if i < (chunksOrWhole s).length - 1 then [DAct.delay 1000] else []))) =
      (List.range k).map (fun i => trimCL ((chunksOrWhole s).getD i [])) := by
  intro k
  induction k with
  | zero => rfl
  | succ k ih =>
    rw [List.range_succ, List.flatMap_append, List.map_append]
    unfold sentOf at ih ⊢
    rw [List.filterMap_append, ih]
    congr 1
    rcases Decidable.em (k < (chunksOrWhole s).length - 1) with hk | hk
    · simp [hk]
    · simp [hk]

/-- Reading a prefix through `getD` over an index range is `take`. -/
theorem range_min_map_getD {α : Type} (l : List α) (k : Nat) (d : α) :
    (List.range (min l.length k)).map (fun i => l.getD i d) = l.take k := by
  induction l generalizing k with
  | nil => simp
  | cons a as ih =>
    cases k with
    | zero => simp
    | succ k =>
      have hmin : min (a :: as).length (k + 1) = min as.length k + 1 := by
        simp only [List.length_cons]
        omega
      rw [hmin, List.range_succ_eq_map, List.map_cons, List.map_map, List.take_succ_cons]
      congr 1
      rw [← ih k]
      apply List.map_congr_left
      intro i _
      rfl

/-- What the long-text path actually sends: the first three raw chunks,
each trimmed. -/
theorem sentOf_sendTextActs {s : List Char} (h : msgCap < s.length) :
    sentOf (sendTextActs s) = ((chunksOrWhole s).take 3).map trimCL := by
  rw [sendTextActs_long h, sentOf_chunkLoop]
  have hfun : ∀ i ∈ List.range (min (chunksOrWhole s).length 3),
      trimCL ((chunksOrWhole s).getD i []) = ((chunksOrWhole s).map trimCL).getD i [] := by
    intro i _
    rcases Decidable.em (i < (chunksOrWhole s).length) with hi | hi
    · rw [List.getD_eq_getElem?_getD, List.getD_eq_getElem?_getD,
        List.getElem?_map, List.getElem?_eq_getElem hi]
      rfl
    · rw [List.getD_eq_getElem?_getD, List.getD_eq_getElem?_getD,
        List.getElem?_eq_none (l := chunksOrWhole s) (by omega),
        List.getElem?_eq_none (l := (chunksOrWhole s).map trimCL) (by simp; omega)]
      rfl
  rw [List.map_congr_left hfun]
  have hlen : min (chunksOrWhole s).length 3 =
      min ((chunksOrWhole s).map trimCL).length 3 := by
    rw [List.length_map]
  rw [hlen, range_min_map_getD, List.map_take]

/-- C8 (amended): for every outbound plain-text message longer than the
2000-character single-message limit **in which no white-space-free run
exceeds the 1900-character per-chunk limit**, `sendMessage` splits the text
on white-space boundaries into ordered chunks (the chunks cover the whole
text in original order, interleaved only with skipped white-space
characters), sends at most 3 chunks sequentially in original order — each
chunk trimmed and at most 1900 characters — with a fixed 1-second delay
after every chunk except the last of the whole chunk list, and silently
drops any remainder beyond the third chunk. Without the bounded-run proviso
the split is not on white-space boundaries: an over-long unbroken word has
characters silently dropped (see the counterexample). -/
theorem C8_chunking_amended (s : List Char) (hr : RunsOK s) (hlen : msgCap < s.length) :
    Covers s (chunksFrom s) ∧
    sentOf (sendTextActs s) = ((chunksOrWhole s).take 3).map trimCL ∧
    (sentOf (sendTextActs s)).length ≤ 3 ∧
    (∀ m ∈ sentOf (sendTextActs s), m.length ≤ chunkCap) ∧
    sendTextActs s = (List.range (min (chunksOrWhole s).length 3)).flatMap (fun i =>
      DAct.send (trimCL ((chunksOrWhole s).getD i [])) ::
        (if i < (chunksOrWhole s).length - 1 then [DAct.delay 1000] else [])) := by
  refine ⟨covers_chunksFrom s hr, sentOf_sendTextActs hlen, ?_, ?_, sendTextActs_long hlen⟩
  · rw [sentOf_sendTextActs hlen, List.length_map, List.length_take]
    omega
  · intro m hm
    rw [sentOf_sendTextActs hlen] at hm
    rcases List.mem_map.1 hm with ⟨raw, hraw, rfl⟩
    have hraw2 : raw ∈ chunksOrWhole s := List.mem_of_mem_take hraw
    unfold chunksOrWhole at hraw2
    split at hraw2
    · next hemp =>
      have hall := chunksFrom_eq_nil (List.isEmpty_iff.1 hemp)
      rcases List.mem_singleton.1 hraw2 with rfl
      rw [trimCL_eq_nil_of_ws (fun c hc => jsWs_of_lineTerm (hall c hc))]
      simp
    · exact chunksFrom_trim_le hraw2

/-- 2015 white-space characters: an over-long text whose white-space-free
runs are all empty. -/
theorem runsOK_rep_sp : RunsOK (List.replicate 2015 ' ') := by
  intro l m r hsplit hm
  cases m with
  | nil => simp
  | cons a as =>
    have ha : a ∈ List.replicate 2015 ' ' := by
      rw [hsplit]
      exact List.mem_append.2 (Or.inl (List.mem_append.2 (Or.inr (List.mem_cons_self a as))))
    have hsp : a = ' ' := List.eq_of_mem_replicate ha
    have hws := hm a (List.mem_cons_self a as)
    rw [hsp] at hws
    exact absurd hws (by decide)

/-- C8 witness: the amended theorem applied to a 2015-character all-space
text, whose hypotheses (bounded runs, over the threshold) hold. -/
theorem C8_witness :
    RunsOK (List.replicate 2015 ' ') ∧
    msgCap < (List.replicate 2015 ' ').length ∧
    Covers (List.replicate 2015 ' ') (chunksFrom (List.replicate 2015 ' ')) ∧
    (∀ m ∈ sentOf (sendTextActs (List.replicate 2015 ' ')), m.length ≤ chunkCap) :=
  ⟨runsOK_rep_sp, by rw [List.length_replicate]; decide,
    (C8_chunking_amended _ runsOK_rep_sp (by rw [List.length_replicate]; decide)).1,
    (C8_chunking_amended _ runsOK_rep_sp (by rw [List.length_replicate]; decide)).2.2.2.1⟩

/-- No valid consumed length exists on an unbroken over-long word: every
candidate stops at a non-white-space character short of the end. -/
theorem findT_replicate_gt {m : Nat} (h : chunkCap < m) :
    findT (List.replicate m 'a') = none := by
  unfold findT
  have hf : (List.range (min chunkCap (List.replicate m 'a').length + 1)).filter
      (chunkValid (List.replicate m 'a')) = [] := by
    rw [List.filter_eq_nil_iff]
    intro t htm
    rw [List.mem_range, List.length_replicate] at htm
    intro hv
    unfold chunkValid at hv
    simp only [Bool.and_eq_true, decide_eq_true_eq] at hv
    rcases hv with ⟨⟨⟨h1, h2⟩, -⟩, hend⟩
    rcases Bool.or_eq_true_iff.1 hend with he | hw
    · simp only [decide_eq_true_eq, List.length_replicate] at he
      omega
    · rcases hm2 : (List.replicate m 'a')[t]? with _ | c
      · rw [hm2] at hw
        simp at hw
      · rw [hm2] at hw
        have hca := List.getElem?_replicate_of_lt (a := 'a') (n := m) (show t < m by omega)
        rw [hm2] at hca
        injection hca with hca
        rw [hca] at hw
        exact absurd hw (by decide)
  rw [hf]
  rfl

/-- The regex does match exactly 1900 word characters, via the end-of-input
alternative of the group. -/
theorem chunkValid_rep1900 : chunkValid (List.replicate 1900 'a') 1900 = true := by
  unfold chunkValid
  rw [List.take_of_length_le (by rw [List.length_replicate])]
  simp only [Bool.and_eq_true, decide_eq_true_eq, Bool.or_eq_true, List.all_eq_true,
    List.length_replicate]
  refine ⟨⟨⟨by omega, by unfold chunkCap; omega⟩, ?_⟩, Or.inl trivial⟩
  intro c hc
  rw [List.eq_of_mem_replicate hc]
  decide

theorem findT_rep1900 : findT (List.replicate 1900 'a') = some 1900 := by
  unfold findT
  refine List.max?_eq_some_iff'.2 ⟨?_, ?_⟩
  · refine List.mem_filter.2 ⟨?_, chunkValid_rep1900⟩
    rw [List.mem_range, List.length_replicate]
    unfold chunkCap
    omega
  · intro b hb
    have hbr := List.mem_range.1 (List.mem_filter.1 hb).1
    rw [List.length_replicate] at hbr
    unfold chunkCap at hbr
    omega

theorem chunksFrom_rep1900 :
    chunksFrom (List.replicate 1900 'a') = [List.replicate 1900 'a'] := by
  have h19 : List.replicate 1900 'a' = 'a' :: List.replicate 1899 'a' := by
    rw [show (1900 : Nat) = 1899 + 1 from rfl, List.replicate_succ]
  rw [h19, chunksFrom_cons_some (t := 1900) (by rw [← h19]; exact findT_rep1900)]
  have hcl : consumedLen ('a' :: List.replicate 1899 'a') 1900 = 1900 := by
    unfold consumedLen
    rw [if_neg (by rw [List.length_cons, List.length_replicate]; omega)]
  rw [hcl, ← h19, List.take_of_length_le (by rw [List.length_replicate]),
    List.drop_of_length_le (by rw [List.length_replicate]), chunksFrom]

/-- Scanning any longer unbroken run of `'a'`s skips characters one at a
time until exactly 1900 remain, then emits that single chunk. -/
theorem chunksFrom_rep_add : ∀ k : Nat,
    chunksFrom (List.replicate (1900 + k) 'a') = [List.replicate 1900 'a']
  | 0 => chunksFrom_rep1900
  | k + 1 => by
    have hrw : List.replicate (1900 + (k + 1)) 'a' =
        'a' :: List.replicate (1900 + k) 'a' := by
      rw [show 1900 + (k + 1) = (1900 + k) + 1 by omega, List.replicate_succ]
    have hnone : findT ('a' :: List.replicate (1900 + k) 'a') = none := by
      rw [← hrw]
      exact findT_replicate_gt (by unfold chunkCap; omega)
    rw [hrw, chunksFrom_cons_none hnone]
    exact chunksFrom_rep_add k

theorem chunksFrom_rep2001 :
    chunksFrom (List.replicate 2001 'a') = [List.replicate 1900 'a'] := by
  rw [show (2001 : Nat) = 1900 + 101 from rfl]
  exact chunksFrom_rep_add 101

theorem chunksOrWhole_rep2001 :
    chunksOrWhole (List.replicate 2001 'a') = [List.replicate 1900 'a'] := by
  unfold chunksOrWhole
  rw [chunksFrom_rep2001]
  rfl

theorem sendTextActs_rep2001 :
    sendTextActs (List.replicate 2001 'a') = [DAct.send (List.replicate 1900 'a')] := by
  rw [sendTextActs_long (by rw [List.length_replicate]; decide), chunksOrWhole_rep2001]
  have htrim : trimCL (List.replicate 1900 'a') = List.replicate 1900 'a' :=
    trimCL_no_ws (fun c hc => by rw [List.eq_of_mem_replicate hc]; decide)
  rw [show List.range (min ([List.replicate 1900 'a'] : List (List Char)).length 3) = [0]
    from rfl]
  simp only [List.flatMap_cons, List.flatMap_nil, List.append_nil, List.getD_cons_zero,
    List.length_cons, List.length_nil]
  rw [htrim, if_neg (by omega)]

/-- C8 (counterexample): a 2001-character text consisting of a single
unbroken word is over the 2000-character limit and yields a single chunk
(well under the 3-chunk cap), yet only its first 1900 characters are sent:
the remaining 101 characters are silently dropped even though they are not
white space, so the split is not on white-space boundaries as the claim
states. -/
theorem C8_counterexample :
    msgCap < (List.replicate 2001 'a').length ∧
    (chunksOrWhole (List.replicate 2001 'a')).length ≤ 3 ∧
    sentOf (sendTextActs (List.replicate 2001 'a')) = [List.replicate 1900 'a'] ∧
    (∀ g0 g1 : List Char,
      List.replicate 2001 'a' = g0 ++ List.replicate 1900 'a' ++ g1 →
      ¬ ∀ c ∈ g0 ++ g1, jsWs c = true) := by
  refine ⟨by rw [List.length_replicate]; decide,
    by rw [chunksOrWhole_rep2001, List.length_cons, List.length_nil]; omega, ?_, ?_⟩
  · rw [sendTextActs_rep2001]
    rfl
  · intro g0 g1 heq hws
    have hlen := congrArg List.length heq
    simp only [List.length_append, List.length_replicate] at hlen
    rcases h01 : g0 ++ g1 with _ | ⟨a, as⟩
    · have h01l := congrArg List.length h01
      simp only [List.length_append, List.length_nil] at h01l
      omega
    · have ha : a ∈ g0 ++ g1 := by
        rw [h01]
        exact List.mem_cons_self a as
      have hmem : a ∈ List.replicate 2001 'a' := by
        rw [heq]
        rcases List.mem_append.1 ha with h | h
        · exact List.mem_append.2 (Or.inl (List.mem_append.2 (Or.inl h)))
        · exact List.mem_append.2 (Or.inr h)
      have haa : a = 'a' := List.eq_of_mem_replicate hmem
      have hwsa := hws a ha
      rw [haa] at hwsa
      exact absurd hwsa (by decide)

end ChatWme
